import Mathlib

/-!
Shallow embedding of the real-time update delivery subsystem of the HRMS
backend (`backend/app/websocket_manager.py`, `backend/app/routes/websocket.py`,
`backend/app/services/fallback_polling.py`).

Conventions of the embedding:
* Python dicts become insertion-ordered association lists (`alget` / `alset` /
  `aldel` below); iteration order of a dict is the list order.
* Wall-clock readings (`datetime.now()`, `asyncio.get_event_loop().time()`)
  become explicit `ℚ`-valued parameters threaded through each operation.
* The websocket transport is a parameter `Transport : ConnId → Bool` telling,
  for each connection, whether a write (`send_text`) succeeds or raises.
  Successful writes are accumulated in a wire log `Wire`.
* `uuid.uuid4()` and `secrets.token_urlsafe(32)` become opaque string
  parameters or constants; the code never inspects their contents.
* `async`/`await` sequencing is direct sequential evaluation; background
  tasks (heartbeat) are out of scope of the claims treated here.
-/

abbrev ConnId := String
abbrev UserId := String

/-- Association-list lookup; models `d.get(k)` / `k in d` on a Python dict,
iterated in insertion order. -/
def alget {V : Type} : List (String × V) → String → Option V
  | [], _ => none
  | p :: t, k => if p.1 = k then some p.2 else alget t k

/-- Association-list store; models `d[k] = v`: replaces in place when the key
exists (keeping its position), else appends, as Python dicts do. -/
def alset {V : Type} (l : List (String × V)) (k : String) (v : V) : List (String × V) :=
  if (alget l k).isSome then l.map (fun p => if p.1 = k then (k, v) else p)
  else l ++ [(k, v)]

/-- Association-list delete; models `del d[k]` (dict keys are unique). -/
def aldel {V : Type} (l : List (String × V)) (k : String) : List (String × V) :=
  l.filter (fun p => !(p.1 == k))

/-- Python `s.startswith(pre)` over the character sequence. -/
def pyStartsWith (s pre : String) : Bool :=
  List.isPrefixOf pre.data s.data

/-- Python `s.endswith(suf)` over the character sequence. -/
def pyEndsWith (s suf : String) : Bool :=
  List.isSuffixOf suf.data s.data

/-- Infix test on character lists (helper for Python `in`). -/
def listInfix (sub l : List Char) : Bool :=
  (List.range (l.length + 1)).any (fun i => List.isPrefixOf sub (l.drop i))

/-- Python `sub in s` substring test. -/
def pyContains (s sub : String) : Bool :=
  listInfix sub.data s.data

/-- Python truthiness of an optional string (`None` and `""` are falsy). -/
def pyTruthy : Option String → Bool
  | none => false
  | some s => !(s == "")

/-- Python `int()` applied to a rational: truncation toward zero. -/
def pyInt (q : ℚ) : ℤ :=
  if 0 ≤ q then ⌊q⌋ else -⌊-q⌋

/-- An outbound JSON message (a Python dict). Only the keys the manager itself
reads or writes are modelled as fields; `body` stands for the remaining opaque
payload. `none` models an absent key. -/
structure Msg where
  type : String := ""
  message_id : Option String := none
  timestamp : Option ℚ := none
  job_id : Option String := none
  status : Option String := none
  candidate_id : Option String := none
  token : Option String := none
  body : ℕ := 0
deriving Repr, DecidableEq

/-- Per-connection health record (`connection_health[connection_id]`). -/
structure Health where
  connected_at : ℚ
  last_ping : Option ℚ := none
  ping_count : ℕ := 0
  latency_ms : List ℚ := []
deriving Repr, DecidableEq

/-- Per-connection token bucket (`rate_limits[connection_id]`). -/
structure RateData where
  tokens : ℤ
  last_update : ℚ
  warnings : ℕ
deriving Repr, DecidableEq

/-- Session snapshot stored by `_handle_disconnect_with_fallback`. -/
structure SessionRec where
  user_id : String
  role : Option String
  last_message : Msg
  disconnected_at : ℚ
deriving Repr, DecidableEq

/-- The mutable state of `WebSocketManager`. The websocket objects held in
`active_connections` are modelled by the ambient `Transport`; the dict itself
becomes its (insertion-ordered) key list. `polls` records the fallback-polling
sessions started on behalf of the manager. -/
structure Manager where
  active_connections : List ConnId := []
  user_connections : List (UserId × List ConnId) := []
  connection_roles : List (ConnId × String) := []
  connection_health : List (ConnId × Health) := []
  message_queue : List (UserId × List Msg) := []
  message_history : List (ConnId × List Msg) := []
  reconnect_tokens : List (UserId × String) := []
  session_state : List (ConnId × SessionRec) := []
  rate_limits : List (ConnId × RateData) := []
  polls : List (UserId × String) := []
deriving Repr, DecidableEq

def emptyManager : Manager := {}

abbrev Transport := ConnId → Bool
abbrev Wire := List (ConnId × Msg)

/-- `self.history_limit = 100`. -/
def historyLimit : ℕ := 100

/-- `self.max_messages_per_minute = 120`. -/
def maxMessagesPerMinute : ℕ := 120

/-- Opaque stand-in for `str(uuid.uuid4())`. -/
def genMessageId : String := "uuid4"

/-- The token-bucket update of `_check_rate_limit` for an existing bucket:
refill from elapsed wall-clock time, cap at capacity, then consume one token
if available, else count a warning. -/
def rateBucketStep (r : RateData) (now : ℚ) : Bool × RateData :=
  let time_passed : ℚ := now - r.last_update
  let tokens_to_add : ℤ := pyInt (time_passed * ((maxMessagesPerMinute : ℚ) / 60))
  let tokens2 : ℤ := min (maxMessagesPerMinute : ℤ) (r.tokens + tokens_to_add)
  if 0 < tokens2 then (true, { tokens := tokens2 - 1, last_update := now, warnings := r.warnings })
  else (false, { tokens := tokens2, last_update := now, warnings := r.warnings + 1 })

/-- One `_check_rate_limit` call on the bucket alone: a missing bucket is
created full (and the first call is allowed without consuming a token). -/
def rlNext : Option RateData → ℚ → Bool × RateData
  | none, now => (true, { tokens := (maxMessagesPerMinute : ℤ), last_update := now, warnings := 0 })
  | some r, now => rateBucketStep r now

/-- A sequence of `_check_rate_limit` calls on one connection, from a given
bucket state, at the given clock readings; returns how many calls were
allowed and the final bucket state. -/
def rlRun : Option RateData → List ℚ → ℕ × Option RateData
  | s, [] => (0, s)
  | s, t :: ts =>
    let ar := rlNext s t
    let rest := rlRun (some ar.2) ts
    ((if ar.1 then 1 else 0) + rest.1, rest.2)

/-- `WebSocketManager.disconnect(connection_id, user_id=None)`: removes the
connection from `active_connections` and, when a user id is supplied and
present, from that user's entry of `user_connections` (deleting the entry
once empty). No other index is touched. -/
def disconnectM (st : Manager) (c : ConnId) (u : Option UserId) : Manager :=
  let st1 : Manager :=
    { st with active_connections := st.active_connections.filter (fun x => !(x == c)) }
  match u with
  | none => st1
  | some uid =>
    match alget st1.user_connections uid with
    | none => st1
    | some conns =>
      let conns2 := conns.filter (fun x => !(x == c))
      if conns2.isEmpty then
        { st1 with user_connections := aldel st1.user_connections uid }
      else
        { st1 with user_connections := alset st1.user_connections uid conns2 }

/-- `WebSocketManager._check_rate_limit` acting on the manager: updates the
bucket and, on a denial that pushes the warning count past 3, disconnects
the connection (without a user id). -/
def checkRateLimit (st : Manager) (c : ConnId) (now : ℚ) : Bool × Manager :=
  let ar := rlNext (alget st.rate_limits c) now
  let st1 : Manager := { st with rate_limits := alset st.rate_limits c ar.2 }
  if ar.1 = false ∧ 3 < ar.2.warnings then (false, disconnectM st1 c none)
  else (ar.1, st1)

/-- `WebSocketManager._get_poll_type`: coarse poll class from the message
type, by substring matching. -/
def getPollType (m : Msg) : Option String :=
  if pyContains m.type "interview" then some "interview"
  else if pyContains m.type "application" then some "application"
  else if pyContains m.type "job" then some "job"
  else if pyContains m.type "system" then some "system"
  else none

/-- `WebSocketManager._handle_disconnect_with_fallback`: find the owning user
by scanning `user_connections`, snapshot a `SessionRec`, start a fallback
polling session when a poll type can be derived, then disconnect (without a
user id, so the `user_connections` entry survives). -/
def handleDisconnectWithFallback (st : Manager) (c : ConnId) (m : Msg) (now : ℚ) : Manager :=
  match (st.user_connections.find? (fun p => p.2.contains c)).map Prod.fst with
  | none => st
  | some uid =>
    let st2 : Manager :=
      { st with session_state :=
          (alset st.session_state c
            { user_id := uid, role := alget st.connection_roles c,
              last_message := m, disconnected_at := now }) }
    let st3 : Manager :=
      match getPollType m with
      | some pt => { st2 with polls := st2.polls ++ [(uid, pt)] }
      | none => st2
    disconnectM st3 c none

/-- `message_id`/`timestamp` defaulting done by `send_personal_message`
before the transport write. -/
def fillMsg (m : Msg) (now : ℚ) : Msg :=
  { m with message_id := some (m.message_id.getD genMessageId),
           timestamp := some (m.timestamp.getD now) }

/-- Append to a connection's `message_history` and trim to the last
`history_limit` entries (`history[-history_limit:]`). -/
def appendHistory (h : List Msg) (m : Msg) : List Msg :=
  let h2 := h ++ [m]
  if historyLimit < h2.length then h2.drop (h2.length - historyLimit) else h2

/-- `WebSocketManager.send_personal_message(message, connection_id,
retry_fallback)`: rate check first; then, if the connection is live, fill the
message ids, attempt the transport write, record history on success and fall
back to disconnect-with-polling on a raised write; an unknown connection also
takes the fallback path. Returns the new state and the wire log. -/
def sendPersonal (tr : Transport) (st : Manager) (m : Msg) (c : ConnId) (now : ℚ)
    (retry : Bool) : Manager × Wire :=
  let ck := checkRateLimit st c now
  if ck.1 = false then (ck.2, [])
  else
    let st1 := ck.2
    if st1.active_connections.contains c then
      let m2 := fillMsg m now
      if tr c then
        ({ st1 with message_history :=
            (alset st1.message_history c
              (appendHistory ((alget st1.message_history c).getD []) m2)) },
         [(c, m2)])
      else
        (if retry then handleDisconnectWithFallback st1 c m2 now else st1, [])
    else
      (if retry then handleDisconnectWithFallback st1 c m now else st1, [])

/-- The replay loop inside `connect`: send each queued message in order over
the new connection via `send_personal_message`. -/
def sendList (tr : Transport) (c : ConnId) (now : ℚ) : List Msg → Manager → Manager × Wire
  | [], st => (st, [])
  | m :: ms, st =>
    let r1 := sendPersonal tr st m c now true
    let r2 := sendList tr c now ms r1.1
    (r2.1, r1.2 ++ r2.2)

/-- The `connection_established` welcome message sent at the end of
`connect`, carrying the (possibly fresh) reconnect token. -/
def welcomeMsg (_c : ConnId) (tok : Option String) : Msg :=
  { type := "connection_established", token := tok }

/-- `WebSocketManager.connect(websocket, connection_id, user_id, role)`:
register the connection, add it to the user's set, drain and replay the
user's queued messages, store the role, initialise health, rotate the
reconnect token, and send the welcome frame. The heartbeat task is a
background task and is not part of the state transition modelled here. -/
def connect (tr : Transport) (st : Manager) (c : ConnId) (u : Option UserId)
    (role : Option String) (now : ℚ) (freshTok : String) : Manager × Wire :=
  let stA : Manager :=
    { st with active_connections :=
        if st.active_connections.contains c then st.active_connections
        else st.active_connections ++ [c] }
  let rB : Manager × Wire :=
    match u with
    | none => (stA, [])
    | some uid =>
      let conns := (alget stA.user_connections uid).getD []
      let stB : Manager :=
        { stA with user_connections :=
            (alset stA.user_connections uid
              (if conns.contains c then conns else conns ++ [c])) }
      match alget stB.message_queue uid with
      | none => (stB, [])
      | some queued =>
        let stC : Manager := { stB with message_queue := aldel stB.message_queue uid }
        sendList tr c now queued stC
  let stD : Manager :=
    match role with
    | none => rB.1
    | some r => { rB.1 with connection_roles := alset rB.1.connection_roles c r }
  let stE : Manager :=
    { stD with connection_health := alset stD.connection_health c { connected_at := now } }
  let stF : Manager :=
    match u with
    | none => stE
    | some uid => { stE with reconnect_tokens := alset stE.reconnect_tokens uid freshTok }
  let tok : Option String :=
    match u with
    | none => none
    | some uid => alget stF.reconnect_tokens uid
  let rG := sendPersonal tr stF (welcomeMsg c tok) c now true
  (rG.1, rB.2 ++ rG.2)

/-- The fan-out loop of `WebSocketManager.broadcast`, iterating the live
`active_connections` dict in insertion order. A raised write disconnects the
failing connection, which mutates the dict under the iterator; the next
iterator step then raises RuntimeError, which the outer handler swallows —
so the loop aborts and no later connection receives the message. -/
def broadcastGo (tr : Transport) (m : Msg) (exclude : List ConnId) :
    List ConnId → Manager → Wire → Manager × Wire
  | [], st, out => (st, out)
  | c :: rest, st, out =>
    if exclude.contains c then broadcastGo tr m exclude rest st out
    else if tr c then broadcastGo tr m exclude rest st (out ++ [(c, m)])
    else (disconnectM st c none, out)

/-- `WebSocketManager.broadcast(message, exclude_connections)`. Broadcast
writes bypass `send_personal_message`: no rate check, no id fill, no
history. -/
def broadcastRun (tr : Transport) (st : Manager) (m : Msg) (exclude : List ConnId) :
    Manager × Wire :=
  broadcastGo tr m exclude st.active_connections st []

/-- Fan-out of `send_to_user` over the snapshot
`list(self.user_connections[user_id])`. -/
def sendToUserGo (tr : Transport) (m : Msg) (now : ℚ) : List ConnId → Manager → Manager × Wire
  | [], st => (st, [])
  | c :: cs, st =>
    let r1 := sendPersonal tr st m c now true
    let r2 := sendToUserGo tr m now cs r1.1
    (r2.1, r1.2 ++ r2.2)

/-- `WebSocketManager.send_to_user(message, user_id)`. A `None` user id is
never a dict key, so it sends nothing. -/
def sendToUser (tr : Transport) (st : Manager) (m : Msg) (u : Option UserId) (now : ℚ) :
    Manager × Wire :=
  match u with
  | none => (st, [])
  | some uid =>
    match alget st.user_connections uid with
    | none => (st, [])
    | some conns => sendToUserGo tr m now conns st

/-- The loop of `broadcast_to_role` over `connection_roles.items()`; sends go
through `send_personal_message`, which swallows all transport errors, so the
`except` branch of the source loop is unreachable. -/
def broadcastToRoleGo (tr : Transport) (m : Msg) (role : String) (now : ℚ) :
    List (ConnId × String) → Manager → Manager × Wire
  | [], st => (st, [])
  | (c, r) :: rest, st =>
    if r == role && st.active_connections.contains c then
      let r1 := sendPersonal tr st m c now true
      let r2 := broadcastToRoleGo tr m role now rest r1.1
      (r2.1, r1.2 ++ r2.2)
    else broadcastToRoleGo tr m role now rest st

/-- `WebSocketManager.broadcast_to_role(message, role)`. -/
def broadcastToRole (tr : Transport) (st : Manager) (m : Msg) (role : String) (now : ℚ) :
    Manager × Wire :=
  broadcastToRoleGo tr m role now st.connection_roles st

/-- `WebSocketManager.handle_job_update`: broadcast a `job_update` message. -/
def handleJobUpdate (tr : Transport) (st : Manager) (job_id : Option String)
    (status : Option String) (payload : ℕ) (now : ℚ) : Manager × Wire :=
  broadcastRun tr st
    { type := "job_update", job_id := job_id, status := status,
      timestamp := some now, body := payload } []

/-- `WebSocketManager.handle_interview_update`: send to the candidate and
notify the `recruiter` role. -/
def handleInterviewUpdate (tr : Transport) (st : Manager) (job_id : Option String)
    (user_id : Option String) (status : Option String) (payload : ℕ) (now : ℚ) :
    Manager × Wire :=
  let m : Msg :=
    { type := "interview_update", job_id := job_id, status := status,
      timestamp := some now, body := payload }
  let r1 := sendToUser tr st m user_id now
  let r2 := broadcastToRole tr r1.1 { m with candidate_id := user_id } "recruiter" now
  (r2.1, r1.2 ++ r2.2)

/-- `WebSocketManager.handle_application_update`: send to the candidate and
notify the `recruiter` role. -/
def handleApplicationUpdate (tr : Transport) (st : Manager) (job_id : Option String)
    (user_id : Option String) (status : Option String) (payload : ℕ) (now : ℚ) :
    Manager × Wire :=
  let m : Msg :=
    { type := "application_update", job_id := job_id, status := status,
      timestamp := some now, body := payload }
  let r1 := sendToUser tr st m user_id now
  let r2 := broadcastToRole tr r1.1 { m with candidate_id := user_id } "recruiter" now
  (r2.1, r1.2 ++ r2.2)

/-- `WebSocketManager._cleanup_message_queue`: drop queued messages older
than 24 hours (a missing timestamp counts as current) and delete users whose
queue empties. -/
def cleanupMessageQueue (st : Manager) (now : ℚ) : Manager :=
  { st with message_queue :=
      st.message_queue.filterMap (fun p =>
        if (p.2.filter (fun m => decide (now - (24 * 60 * 60) < m.timestamp.getD now))).isEmpty
        then none
        else some (p.1,
          p.2.filter (fun m => decide (now - (24 * 60 * 60) < m.timestamp.getD now)))) }

/-- An event arriving from the Redis pub/sub bridge
(`event_data` of `_handle_redis_event`). `status` models
`payload.get("status")`; `payload` is the remaining opaque payload. -/
structure RedisEvent where
  event_type : String
  job_id : Option String := none
  user_id : Option String := none
  target_role : Option String := none
  status : Option String := none
  payload : ℕ := 0
deriving Repr, DecidableEq

/-- The generic `message` dict built at the top of `_handle_redis_event`. -/
def redisMessage (ev : RedisEvent) (now : ℚ) : Msg :=
  { type := "event", job_id := ev.job_id, timestamp := some now, body := ev.payload }

/-- `WebSocketManager._handle_redis_event`: type-prefix dispatch to the
specific handlers, then audience routing (role broadcast, user send or
offline enqueue, else global broadcast), then the queue sweep. -/
def handleRedisEvent (tr : Transport) (st : Manager) (ev : RedisEvent) (now : ℚ) :
    Manager × Wire :=
  let message := redisMessage ev now
  let r1 : Manager × Wire :=
    if pyStartsWith ev.event_type "interview_" then
      if ev.event_type = "interview_questions_ready" then
        handleInterviewUpdate tr st ev.job_id ev.user_id (some "questions_ready") ev.payload now
      else if ev.event_type = "interview_response_evaluated" then
        handleInterviewUpdate tr st ev.job_id ev.user_id (some "response_evaluated") ev.payload now
      else if ev.event_type = "interview_completed" then
        handleInterviewUpdate tr st ev.job_id ev.user_id (some "completed") ev.payload now
      else (st, [])
    else if pyStartsWith ev.event_type "application_" then
      if ev.event_type = "application_status_changed" then
        handleApplicationUpdate tr st ev.job_id ev.user_id ev.status ev.payload now
      else (st, [])
    else if pyEndsWith ev.event_type "_completed" then
      if ev.event_type = "resume_processed" then
        handleJobUpdate tr st ev.job_id (some "resume_processed") ev.payload now
      else if ev.event_type = "video_processed" then
        handleJobUpdate tr st ev.job_id (some "video_processed") ev.payload now
      else if ev.event_type = "job_matching_completed" then
        handleJobUpdate tr st ev.job_id (some "matching_completed") ev.payload now
      else if ev.event_type = "candidate_scored" then
        handleJobUpdate tr st ev.job_id (some "scoring_completed") ev.payload now
      else (st, [])
    else (st, [])
  let st1 := r1.1
  let r2 : Manager × Wire :=
    if pyTruthy ev.target_role then
      broadcastToRole tr st1 message (ev.target_role.getD "") now
    else if pyTruthy ev.user_id then
      match ev.user_id with
      | some uid =>
        if (alget st1.user_connections uid).isSome then
          sendToUser tr st1 message (some uid) now
        else
          ({ st1 with message_queue :=
              (alset st1.message_queue uid
                (((alget st1.message_queue uid).getD []) ++ [message])) }, [])
      | none => (st1, [])
    else broadcastRun tr st1 message []
  (cleanupMessageQueue r2.1 now, r1.2 ++ r2.2)

/-!
`backend/app/services/fallback_polling.py`. Records of the system of record
are identified by their unique, totally ordered `_id`; a record is modelled
by that identifier (`ℕ` here). The Mongo query `find({_id: {$gt: w}},
sort=[(_id, 1)], limit=100)` returns the matching records in ascending id
order, at most 100 of them; `_format_update` always emits a non-empty `id`
string for a returned document.
-/

/-- Does a record id lie beyond the watermark? (`none` = no watermark yet,
so everything matches.) -/
def afterWm (w : Option ℕ) (i : ℕ) : Bool :=
  match w with
  | none => true
  | some x => x < i

/-- `FallbackPollingService._get_updates`: records past the watermark, in
ascending id order, limited to 100. -/
def getUpdates (w : Option ℕ) (db : List ℕ) : List ℕ :=
  ((db.filter (fun i => afterWm w i)).insertionSort (fun a b => a ≤ b)).take 100

/-- The watermark half of one `_poll_loop` tick: fetch updates and, when
non-empty, advance `last_update_id` to the id of the last delivered record.
Returns (delivered records, new watermark). -/
def pollTickWm (w : Option ℕ) (db : List ℕ) : List ℕ × Option ℕ :=
  let updates := getUpdates w db
  match updates.getLast? with
  | some l => (updates, some l)
  | none => (updates, w)

/-- One session of `FallbackPollingService.active_polls`. -/
structure PollSession where
  user_id : String
  ptype : String
  last_poll : ℚ
  interval : ℚ
  last_update_id : Option ℕ
deriving Repr, DecidableEq

/-- `self.max_poll_age = timedelta(hours=24)`, in seconds. -/
def maxPollAge : ℚ := 86400

/-- One full body of the `while` loop of `_poll_loop`: fetch updates past the
watermark, deliver them to the callback, advance the watermark, set
`last_poll` to the current time (`now1`, the `datetime.now()` of line
`poll["last_poll"] = datetime.now()`), then evaluate the age check
`datetime.now() - poll["last_poll"] > self.max_poll_age` at the immediately
following clock reading `now2`. Returns the updated session, the delivered
records, and whether the session stopped itself. -/
def pollLoopTick (p : PollSession) (db : List ℕ) (now1 now2 : ℚ) :
    PollSession × List ℕ × Bool :=
  let tw := pollTickWm p.last_update_id db
  let p1 : PollSession := { p with last_update_id := tw.2, last_poll := now1 }
  (p1, tw.1, decide (maxPollAge < now2 - p1.last_poll))

/-!
`backend/app/routes/websocket.py`.
-/

/-- Outcome of the `POST /ws/reconnect` route. -/
inductive ReconnectOutcome where
  | ok (user_id : String) (role : Option String) (last_message : Msg) (disconnected_at : ℚ)
  | authError
  | notFound
deriving Repr, DecidableEq

/-- Python `a or b` on optional strings (`None` and `""` are falsy). -/
def pyOrStr (a b : Option String) : Option String :=
  match a with
  | some s => if s = "" then b else some s
  | none => b

/-- `reconnect_session(user_id, reconnect_token, role)`: 401 when the stored
token is missing/falsy or differs from the supplied one; else the first
stored session state whose `user_id` matches, or 404 when none exists. -/
def reconnectSession (tokens : List (UserId × String)) (sessions : List (ConnId × SessionRec))
    (user_id reconnect_token : String) (role : Option String) : ReconnectOutcome :=
  match alget tokens user_id with
  | none => .authError
  | some stored =>
    if stored = "" then .authError
    else if stored ≠ reconnect_token then .authError
    else
      match sessions.find? (fun p => p.2.user_id == user_id) with
      | none => .notFound
      | some p =>
        .ok user_id (pyOrStr role p.2.role) p.2.last_message p.2.disconnected_at

/-- A parsed JSON value, as produced by `json.loads` on an inbound frame. -/
inductive JVal where
  | jnull
  | jbool (b : Bool)
  | jnum (q : ℚ)
  | jstr (s : String)
  | jarr (xs : List JVal)
  | jobj (fields : List (String × JVal))

/-- Observable outcome of one iteration of the receive loop of
`websocket_endpoint` on a single inbound frame. -/
inductive RecvOutcome where
  | pongUpdated (ping_timestamp : ℚ)
  | ignored
  | closed
deriving Repr, DecidableEq

/-- One iteration of the receive loop of `websocket_endpoint`, given the
result of `json.loads` on the frame (`none` = the parse raised). A parse
failure hits `continue`; a JSON object is dispatched on its `type` key: a
`pong` with a numeric `ping_timestamp` updates health, a `pong` without one
raises inside `handle_pong` where it is swallowed; a `user_message` calls
`websocket_manager.handle_user_message`, a method the manager does not
define, so the AttributeError escapes the loop and the endpoint closes the
socket; any other object falls through silently. A non-object JSON value
raises AttributeError at `message.get` with the same fate. -/
def frameStep : Option JVal → RecvOutcome
  | none => .ignored
  | some (JVal.jobj fields) =>
    match alget fields "type" with
    | some (JVal.jstr t) =>
      if t = "pong" then
        match alget fields "ping_timestamp" with
        | some (JVal.jnum q) => .pongUpdated q
        | _ => .ignored
      else if t = "user_message" then .closed
      else .ignored
    | _ => .ignored
  | some _ => .closed

/-!
Concrete inputs used by the counterexamples and witnesses below.
-/

/-- A transport on which every write succeeds. -/
def trAll : Transport := fun _ => true

/-- A transport on which exactly connection `c1` fails. -/
def trFailC1 : Transport := fun c => !(c == "c1")

/-- Two live connections, `c1` before `c2` in dict insertion order. -/
def c1State : Manager := { emptyManager with active_connections := ["c1", "c2"] }

def c1Message : Msg := { type := "system_announcement" }

/-- A queued message with body `i`, as enqueued at clock time 0. -/
def c2QMsg (i : ℕ) : Msg := { type := "event", timestamp := some 0, body := i }

/-- A user with 122 queued messages and no live connection. -/
def c2State : Manager :=
  { emptyManager with message_queue := [("u1", List.replicate 122 (c2QMsg 0))] }

/-- A user with one queued message and no live connection. -/
def c2StateSmall : Manager :=
  { emptyManager with message_queue := [("u1", [c2QMsg 0])] }

def c3Session : SessionRec :=
  { user_id := "u1", role := some "candidate", last_message := {}, disconnected_at := 0 }

/-- An event whose type matches no dispatch branch, targeted at user `u1`. -/
def c4Event : RedisEvent := { event_type := "candidate_update", user_id := some "u1" }

/-- The manager state after `n` Redis events for the offline user `u1`,
all at clock time 0. -/
def c4StateN : ℕ → Manager
  | 0 => emptyManager
  | n + 1 => (handleRedisEvent trAll (c4StateN n) c4Event 0).1

/-- A queue holding one fresh message (timestamp 0) for user `u1`. -/
def c4SweepState : Manager :=
  { emptyManager with message_queue := [("u1", [c2QMsg 7])] }

/-- The state reached by connecting `c1` for user `u1` with role
`recruiter` at time 0. -/
def c5Connected : Manager :=
  (connect trAll emptyManager "c1" (some "u1") (some "recruiter") 0 "tokA").1

def c10State : Manager := { emptyManager with active_connections := ["c9"] }

/-!
Helper lemmas about the association-list operations.
-/

theorem alget_eq_none_iff {V : Type} (l : List (String × V)) (k : String) :
    alget l k = none ↔ ∀ p ∈ l, p.1 ≠ k := by
  induction l with
  | nil => simp [alget]
  | cons p t ih =>
    by_cases h : p.1 = k
    · simp [alget, h]
    · simp [alget, h, ih]

theorem alget_mem {V : Type} {l : List (String × V)} {k : String} {v : V}
    (h : alget l k = some v) : (k, v) ∈ l := by
  induction l with
  | nil => simp [alget] at h
  | cons p t ih =>
    by_cases hp : p.1 = k
    · have hpv : p = (k, v) := by
        obtain ⟨p1, p2⟩ := p
        simp only [alget] at h
        simp only at hp
        rw [if_pos hp] at h
        simp only [Option.some.injEq] at h
        simp [hp, h]
      rw [hpv]
      exact List.mem_cons_self _ _
    · simp [alget, hp] at h
      exact List.mem_cons_of_mem _ (ih h)

theorem alget_map_update {V : Type} (l : List (String × V)) (k : String) (v : V)
    (h : (alget l k).isSome) :
    alget (l.map (fun p => if p.1 = k then (k, v) else p)) k = some v := by
  induction l with
  | nil => simp [alget] at h
  | cons p t ih =>
    by_cases hp : p.1 = k
    · simp [alget, hp]
    · simp only [List.map_cons, if_neg hp]
      simp only [alget, if_neg hp]
      simp [alget, hp] at h
      exact ih h

theorem alget_append_of_none {V : Type} (l r : List (String × V)) (k : String)
    (h : alget l k = none) : alget (l ++ r) k = alget r k := by
  induction l with
  | nil => simp
  | cons p t ih =>
    by_cases hp : p.1 = k
    · simp [alget, hp] at h
    · simp only [alget, if_neg hp] at h
      simp only [List.cons_append, alget, if_neg hp]
      exact ih h

theorem alget_alset_self {V : Type} (l : List (String × V)) (k : String) (v : V) :
    alget (alset l k v) k = some v := by
  unfold alset
  by_cases h : (alget l k).isSome
  · simp only [if_pos h]
    exact alget_map_update l k v h
  · simp only [if_neg h]
    have hn : alget l k = none := by
      cases hval : alget l k
      · rfl
      · simp [hval] at h
    rw [alget_append_of_none _ _ _ hn]
    simp [alget]

theorem alget_append_cases {V : Type} (l r : List (String × V)) (k : String) :
    alget (l ++ r) k = match alget l k with
      | some v => some v
      | none => alget r k := by
  induction l with
  | nil => simp [alget]
  | cons p t ih =>
    by_cases hp : p.1 = k
    · simp [alget, hp]
    · simp only [List.cons_append, alget, if_neg hp]
      exact ih

theorem alget_map_update_ne {V : Type} (l : List (String × V)) (k k2 : String) (v : V)
    (h : k2 ≠ k) :
    alget (l.map (fun p => if p.1 = k then (k, v) else p)) k2 = alget l k2 := by
  induction l with
  | nil => simp [alget]
  | cons p t ih =>
    by_cases hp : p.1 = k
    · simp only [List.map_cons, if_pos hp]
      simp only [alget]
      rw [if_neg (Ne.symm h), if_neg (by rw [hp]; exact Ne.symm h)]
      exact ih
    · simp only [List.map_cons, if_neg hp]
      simp only [alget]
      by_cases hp2 : p.1 = k2
      · simp [hp2]
      · rw [if_neg hp2, if_neg hp2]
        exact ih

theorem alget_alset_ne {V : Type} (l : List (String × V)) (k k2 : String) (v : V)
    (h : k2 ≠ k) : alget (alset l k v) k2 = alget l k2 := by
  unfold alset
  by_cases hs : (alget l k).isSome
  · simp only [if_pos hs]
    exact alget_map_update_ne l k k2 v h
  · simp only [if_neg hs]
    rw [alget_append_cases]
    cases hval : alget l k2 with
    | some w => simp
    | none => simp [alget, Ne.symm h]

theorem alget_aldel_self {V : Type} (l : List (String × V)) (k : String) :
    alget (aldel l k) k = none := by
  rw [alget_eq_none_iff]
  intro p hp
  unfold aldel at hp
  have := List.of_mem_filter hp
  simpa using this

theorem alget_aldel_ne {V : Type} (l : List (String × V)) (k k2 : String)
    (h : k2 ≠ k) : alget (aldel l k) k2 = alget l k2 := by
  induction l with
  | nil => simp [aldel]
  | cons p t ih =>
    unfold aldel
    by_cases hp : p.1 = k
    · simp only [List.filter_cons, hp]
      simp only [beq_self_eq_true, Bool.not_true, if_neg]
      simp only [alget, hp, if_neg (Ne.symm h)]
      exact ih
    · have : (!(p.1 == k)) = true := by simp [hp]
      simp only [List.filter_cons, this, if_pos]
      simp only [alget]
      by_cases hp2 : p.1 = k2
      · simp [hp2]
      · simp only [if_neg hp2]
        exact ih

/-!
Claim C1 — broadcast isolation.
-/

/-- C1: with two live connections `c1, c2` (in insertion order) and a
transport write that raises on `c1` only, `broadcast` delivers the message
to nobody — in particular not to the K−1 = 1 surviving connection `c2` —
because `disconnect(c1)` mutates `active_connections` under the running
dict iterator and the resulting RuntimeError aborts the fan-out loop inside
the outer exception handler. Only `c1` is removed from the index. This
refutes the claimed isolation: the surviving connection receives nothing. -/
theorem c1_broadcast_failure_not_isolated :
    (broadcastRun trFailC1 c1State c1Message []).2 = [] ∧
    (broadcastRun trFailC1 c1State c1Message []).1.active_connections = ["c2"] := by
  constructor
  · rfl
  · rfl

/-!
Claim C8 — fallback-polling sessions never self-terminate.
-/

/-- C8: the age check of `_poll_loop` compares `datetime.now()` against
`poll["last_poll"]`, which the immediately preceding statement has just set
to `datetime.now()`. Hence for every session — however old — and every tick
in which the two consecutive clock readings are at most 24 hours apart
(always, in practice), the check is false and the session does not
deregister itself: no session ever self-terminates at the 24-hour age
limit. -/
theorem c8_poll_age_check_never_fires (p : PollSession) (db : List ℕ) (now1 now2 : ℚ)
    (h : now2 - now1 ≤ maxPollAge) :
    (pollLoopTick p db now1 now2).2.2 = false := by
  simp only [pollLoopTick]
  exact decide_eq_false (not_lt.mpr h)

/-- Witness for C8: a session registered at time 0 ticking at t = 90000 s
(25 hours later, past the 24-hour limit) still does not stop. -/
theorem c8_witness :
    ((90000 : ℚ) - 90000 ≤ maxPollAge) ∧
    (pollLoopTick { user_id := "u1", ptype := "interview", last_poll := 0,
                    interval := 5, last_update_id := none } [] 90000 90000).2.2 = false := by
  constructor
  · norm_num [maxPollAge]
  · exact c8_poll_age_check_never_fires _ _ _ _ (by norm_num [maxPollAge])

/-!
Claim C9 — handling of malformed inbound frames.
-/

/-- C9 counterexample: the frame `null` is valid JSON but matches no
documented message shape, so it is malformed in the sense of the claim; yet
the receive loop does not silently discard it — `message.get("type")` raises
AttributeError, which escapes the loop, and the endpoint closes the
connection. -/
theorem c9_counterexample : frameStep (some JVal.jnull) = RecvOutcome.closed := rfl

/-- C9 (amended): a frame that fails JSON parsing is silently discarded with
the connection left open, and so is a frame parsing to a JSON object whose
`type` is neither `pong` nor `user_message`; but a frame parsing to a
non-object JSON value closes the connection (as does a well-formed
`user_message` frame, whose manager handler does not exist). -/
theorem c9_malformed_frames (fields : List (String × JVal))
    (h1 : alget fields "type" ≠ some (JVal.jstr "pong"))
    (h2 : alget fields "type" ≠ some (JVal.jstr "user_message")) :
    frameStep none = RecvOutcome.ignored ∧
    frameStep (some (JVal.jobj fields)) = RecvOutcome.ignored := by
  refine ⟨rfl, ?_⟩
  show (match alget fields "type" with
    | some (JVal.jstr t) =>
      if t = "pong" then
        match alget fields "ping_timestamp" with
        | some (JVal.jnum q) => RecvOutcome.pongUpdated q
        | _ => RecvOutcome.ignored
      else if t = "user_message" then RecvOutcome.closed
      else RecvOutcome.ignored
    | _ => RecvOutcome.ignored) = RecvOutcome.ignored
  cases hv : alget fields "type" with
  | none => rfl
  | some v =>
    cases v with
    | jstr s =>
      by_cases hs : s = "pong"
      · exact absurd (hs ▸ hv) h1
      · by_cases hs2 : s = "user_message"
        · exact absurd (hs2 ▸ hv) h2
        · simp [hs, hs2]
    | jnull => rfl
    | jbool b => rfl
    | jnum q => rfl
    | jarr xs => rfl
    | jobj fs => rfl

/-- Witness for C9: a JSON object frame with the unrecognized type `hello`
is discarded and the loop continues. -/
theorem c9_witness :
    (alget [("type", JVal.jstr "hello")] "type" ≠ some (JVal.jstr "pong")) ∧
    (alget [("type", JVal.jstr "hello")] "type" ≠ some (JVal.jstr "user_message")) ∧
    (frameStep none = RecvOutcome.ignored ∧
     frameStep (some (JVal.jobj [("type", JVal.jstr "hello")])) = RecvOutcome.ignored) := by
  refine ⟨?_, ?_, ?_⟩
  · intro h
    simp [alget] at h
  · intro h
    simp [alget] at h
  · exact c9_malformed_frames _ (by intro h; simp [alget] at h) (by intro h; simp [alget] at h)

/-!
Claim C7 — poll watermark monotonicity.
-/

theorem getLast?_mem_own {l : List ℕ} {a : ℕ} (h : l.getLast? = some a) : a ∈ l := by
  obtain ⟨hne, rfl⟩ := List.mem_getLast?_eq_getLast (by rw [h]; rfl)
  exact List.getLast_mem hne

theorem sorted_le_getLast (l : List ℕ) (hs : List.Sorted (fun a b => a ≤ b) l) :
    ∀ x ∈ l, ∀ g, l.getLast? = some g → x ≤ g := by
  induction l with
  | nil => intro x hx; simp at hx
  | cons a t ih =>
    intro x hx g hg
    cases t with
    | nil =>
      simp at hx
      simp [List.getLast?] at hg
      omega
    | cons b t2 =>
      rw [List.getLast?_cons_cons] at hg
      rcases List.mem_cons.mp hx with rfl | hx2
      · have hg_mem : g ∈ b :: t2 := getLast?_mem_own hg
        exact (List.sorted_cons.mp hs).1 g hg_mem
      · exact ih (List.sorted_cons.mp hs).2 x hx2 g hg

theorem mem_getUpdates_afterWm (w : Option ℕ) (db : List ℕ) (x : ℕ)
    (hx : x ∈ getUpdates w db) : afterWm w x = true := by
  unfold getUpdates at hx
  have h1 := List.mem_of_mem_take hx
  have h2 := (List.perm_insertionSort (fun a b => a ≤ b)
    (db.filter (fun i => afterWm w i))).mem_iff.mp h1
  exact (List.mem_filter.mp h2).2

theorem sorted_getUpdates (w : Option ℕ) (db : List ℕ) :
    List.Sorted (fun a b => a ≤ b) (getUpdates w db) :=
  (List.sorted_insertionSort _ _).sublist (List.take_sublist _ _)

theorem pollTickWm_fst (w : Option ℕ) (db : List ℕ) :
    (pollTickWm w db).1 = getUpdates w db := by
  simp only [pollTickWm]
  cases h : (getUpdates w db).getLast? <;> simp

/-- C7: for a fallback-polling session, the record sets returned by two
consecutive ticks never overlap; the watermark stays equal when no new
records exist and otherwise strictly advances to the identifier of the last
delivered record; and a record whose identifier the watermark has passed is
never delivered again (every later delivery lies strictly beyond the
watermark). -/
theorem c7_poll_watermark (w : Option ℕ) (db1 db2 : List ℕ) :
    (∀ x ∈ (pollTickWm w db1).1, x ∉ (pollTickWm (pollTickWm w db1).2 db2).1)
  ∧ ((pollTickWm w db1).1 = [] → (pollTickWm w db1).2 = w)
  ∧ (∀ l, (pollTickWm w db1).1.getLast? = some l →
      (pollTickWm w db1).2 = some l ∧ afterWm w l = true)
  ∧ (∀ y ∈ (pollTickWm (pollTickWm w db1).2 db2).1,
      afterWm (pollTickWm w db1).2 y = true) := by
  have hfst1 : (pollTickWm w db1).1 = getUpdates w db1 := pollTickWm_fst w db1
  refine ⟨?_, ?_, ?_, ?_⟩
  · intro x hx hx2
    rw [pollTickWm_fst] at hx2
    have hafter := mem_getUpdates_afterWm _ _ _ hx2
    rw [hfst1] at hx
    cases hg : (getUpdates w db1).getLast? with
    | none =>
      have : getUpdates w db1 = [] := List.getLast?_eq_none_iff.mp hg
      rw [this] at hx
      simp at hx
    | some g =>
      have hsnd : (pollTickWm w db1).2 = some g := by
        simp only [pollTickWm]
        rw [hg]
      rw [hsnd] at hafter
      have hle : x ≤ g := sorted_le_getLast _ (sorted_getUpdates w db1) x hx g hg
      simp only [afterWm, decide_eq_true_eq] at hafter
      omega
  · intro he
    rw [hfst1] at he
    simp only [pollTickWm]
    rw [he]
    rfl
  · intro l hl
    rw [hfst1] at hl
    constructor
    · simp only [pollTickWm]
      rw [hl]
    · exact mem_getUpdates_afterWm _ _ _ (getLast?_mem_own hl)
  · intro y hy
    rw [pollTickWm_fst] at hy
    exact mem_getUpdates_afterWm _ _ _ hy

/-- Witness for C7 at a concrete input: watermark `none`, first database
`[1, 2]`, second database `[1, 2, 3]`. -/
theorem c7_witness :
    (∀ x ∈ (pollTickWm none [1, 2]).1, x ∉ (pollTickWm (pollTickWm none [1, 2]).2 [1, 2, 3]).1)
  ∧ ((pollTickWm none [1, 2]).1 = [] → (pollTickWm none [1, 2]).2 = none)
  ∧ (∀ l, (pollTickWm none [1, 2]).1.getLast? = some l →
      (pollTickWm none [1, 2]).2 = some l ∧ afterWm none l = true)
  ∧ (∀ y ∈ (pollTickWm (pollTickWm none [1, 2]).2 [1, 2, 3]).1,
      afterWm (pollTickWm none [1, 2]).2 y = true) :=
  c7_poll_watermark none [1, 2] [1, 2, 3]

/-!
Claim C3 — reconnect token correctness.
-/

/-- C3: `POST /ws/reconnect` succeeds (returns a `ready_to_reconnect`
response) iff the supplied token equals the token currently stored for the
user and some stored session state carries that user id; a missing or
non-matching token yields the 401 auth rejection, and a matching token with
no stored session yields the distinct 404 not-found error — the two error
cases are never conflated. (The hypothesis that stored tokens are non-empty
holds for every reachable state: tokens are produced by
`secrets.token_urlsafe(32)`.) -/
theorem c3_reconnect_token_correct (tokens : List (UserId × String))
    (sessions : List (ConnId × SessionRec)) (u t : String) (role : Option String)
    (hne : ∀ p ∈ tokens, p.2 ≠ "") :
    ((∃ uid r lm d, reconnectSession tokens sessions u t role = ReconnectOutcome.ok uid r lm d) ↔
      (alget tokens u = some t ∧ ∃ p ∈ sessions, p.2.user_id = u))
  ∧ (alget tokens u ≠ some t →
      reconnectSession tokens sessions u t role = ReconnectOutcome.authError)
  ∧ (alget tokens u = some t → (∀ p ∈ sessions, p.2.user_id ≠ u) →
      reconnectSession tokens sessions u t role = ReconnectOutcome.notFound) := by
  cases hv : alget tokens u with
  | none =>
    refine ⟨?_, ?_, ?_⟩
    · constructor
      · rintro ⟨uid, r, lm, d, hok⟩
        simp only [reconnectSession, hv] at hok
        simp at hok
      · rintro ⟨hcon, -⟩
        simp at hcon
    · intro _
      simp only [reconnectSession, hv]
    · intro hcon
      simp at hcon
  | some stored =>
    have hstored : stored ≠ "" := hne _ (alget_mem hv)
    by_cases hst : stored = t
    · subst hst
      cases hf : sessions.find? (fun p => p.2.user_id == u) with
      | none =>
        have hall : ∀ p ∈ sessions, p.2.user_id ≠ u := by
          intro p hp
          have := List.find?_eq_none.mp hf p hp
          simpa using this
        refine ⟨?_, ?_, ?_⟩
        · constructor
          · rintro ⟨uid, r, lm, d, hok⟩
            simp only [reconnectSession, hv, if_neg hstored, hf] at hok
            simp at hok
          · rintro ⟨-, p, hp, hpu⟩
            exact absurd hpu (hall p hp)
        · intro hcon
          exact absurd rfl hcon
        · intro _ _
          simp only [reconnectSession, hv, if_neg hstored, hf]
          simp
      | some p =>
        have hpmem : p ∈ sessions := List.mem_of_find?_eq_some hf
        have hpu : p.2.user_id = u := by
          have := List.find?_some hf
          simpa using this
        refine ⟨?_, ?_, ?_⟩
        · constructor
          · intro _
            exact ⟨rfl, p, hpmem, hpu⟩
          · intro _
            refine ⟨u, pyOrStr role p.2.role, p.2.last_message, p.2.disconnected_at, ?_⟩
            simp only [reconnectSession, hv, if_neg hstored, hf]
            simp
        · intro hcon
          exact absurd rfl hcon
        · intro _ hall
          exact absurd hpu (hall p hpmem)
    · refine ⟨?_, ?_, ?_⟩
      · constructor
        · rintro ⟨uid, r, lm, d, hok⟩
          simp only [reconnectSession, hv, if_neg hstored, if_neg hst] at hok
          simp [hst] at hok
        · rintro ⟨hcon, -⟩
          simp only [Option.some.injEq] at hcon
          exact absurd hcon hst
      · intro _
        simp only [reconnectSession, hv, if_neg hstored]
        simp [hst]
      · intro hcon
        simp only [Option.some.injEq] at hcon
        exact absurd hcon hst

/-- Witness for C3 at a concrete input: one stored token, one stored
session, a matching reconnect attempt. -/
theorem c3_witness :
    (∀ p ∈ [("u1", "tokA")], p.2 ≠ "") ∧
    (((∃ uid r lm d, reconnectSession [("u1", "tokA")] [("c1", c3Session)] "u1" "tokA" none =
          ReconnectOutcome.ok uid r lm d) ↔
        (alget [("u1", "tokA")] "u1" = some "tokA" ∧
          ∃ p ∈ [("c1", c3Session)], p.2.user_id = "u1"))
    ∧ (alget [("u1", "tokA")] "u1" ≠ some "tokA" →
        reconnectSession [("u1", "tokA")] [("c1", c3Session)] "u1" "tokA" none =
          ReconnectOutcome.authError)
    ∧ (alget [("u1", "tokA")] "u1" = some "tokA" →
        (∀ p ∈ [("c1", c3Session)], p.2.user_id ≠ "u1") →
        reconnectSession [("u1", "tokA")] [("c1", c3Session)] "u1" "tokA" none =
          ReconnectOutcome.notFound)) := by
  have hne : ∀ p ∈ [("u1", "tokA")], p.2 ≠ "" := by decide
  exact ⟨hne, c3_reconnect_token_correct _ _ _ _ none hne⟩

/-!
Claim C10 — per-connection message history bound.
-/

/-- C10: the history append of `send_personal_message` always leaves at most
`history_limit` (100) messages, keeping exactly the most recent ones (the
result is a suffix of the appended list of length `min (n+1) 100`); and on a
successful send (rate limit clear, connection live, transport write ok) the
manager stores exactly this trimmed history for the connection and delivers
the filled message. -/
theorem c10_history_limit :
    (∀ (h : List Msg) (m : Msg),
        (appendHistory h m).length ≤ historyLimit
      ∧ (appendHistory h m).length = min (h.length + 1) historyLimit
      ∧ List.IsSuffix (appendHistory h m) (h ++ [m]))
  ∧ (∀ (tr : Transport) (st : Manager) (m : Msg) (c : ConnId) (now : ℚ),
        alget st.rate_limits c = none →
        st.active_connections.contains c = true →
        tr c = true →
        (sendPersonal tr st m c now true).1.message_history =
          alset st.message_history c
            (appendHistory ((alget st.message_history c).getD []) (fillMsg m now))
      ∧ (sendPersonal tr st m c now true).2 = [(c, fillMsg m now)]) := by
  constructor
  · intro h m
    unfold appendHistory historyLimit
    by_cases hlt : 100 < (h ++ [m]).length
    · rw [if_pos hlt]
      refine ⟨?_, ?_, List.drop_suffix _ _⟩
      · rw [List.length_drop]
        omega
      · rw [List.length_drop]
        simp only [List.length_append, List.length_cons, List.length_nil] at hlt ⊢
        omega
    · rw [if_neg hlt]
      simp only [List.length_append, List.length_cons, List.length_nil] at hlt ⊢
      exact ⟨by omega, by omega, List.suffix_rfl⟩
  · intro tr st m c now hrate hact htr
    have hck : checkRateLimit st c now =
        (true, { st with rate_limits := (alset st.rate_limits c
          { tokens := (maxMessagesPerMinute : ℤ), last_update := now, warnings := 0 }) }) := by
      simp only [checkRateLimit, hrate, rlNext]
      simp
    constructor
    · simp only [sendPersonal, hck]
      simp only [Bool.true_eq_false, if_neg]
      simp only [hact, htr, if_pos, if_true]
      rfl
    · simp only [sendPersonal, hck]
      simp only [Bool.true_eq_false, if_neg]
      simp only [hact, htr, if_pos, if_true]
      rfl

/-- Witness for C10: a successful send on a fresh live connection. -/
theorem c10_witness :
    (alget c10State.rate_limits "c9" = none) ∧
    (c10State.active_connections.contains "c9" = true) ∧
    (trAll "c9" = true) ∧
    ((sendPersonal trAll c10State {} "c9" 0 true).1.message_history =
        alset c10State.message_history "c9"
          (appendHistory ((alget c10State.message_history "c9").getD []) (fillMsg {} 0))
      ∧ (sendPersonal trAll c10State {} "c9" 0 true).2 = [("c9", fillMsg {} 0)]) :=
  ⟨rfl, rfl, rfl, c10_history_limit.2 trAll c10State {} "c9" 0 rfl rfl rfl⟩

/-!
Claim C6 — token-bucket rate limiting.
-/

theorem pyInt_of_nonneg (q : ℚ) (h : 0 ≤ q) : pyInt q = ⌊q⌋ := if_pos h

theorem floor_add_le_floor (x y : ℚ) : ⌊x⌋ + ⌊y⌋ ≤ ⌊x + y⌋ := by
  apply Int.le_floor.mpr
  push_cast
  have hx := Int.floor_le x
  have hy := Int.floor_le y
  linarith

theorem getLast?_cons_eq (t : ℚ) (ts : List ℚ) (x : ℚ) (h : x = ts.getLast?.getD t) :
    (t :: ts).getLast? = some x := by
  cases ts with
  | nil => simp [h, List.getLast?]
  | cons a l =>
    rw [List.getLast?_cons_cons]
    have hg : (a :: l).getLast? = some ((a :: l).getLast (by simp)) :=
      List.getLast?_eq_getLast_of_ne_nil (by simp)
    rw [hg] at h ⊢
    simp only [Option.getD_some] at h
    rw [h]

/-- One bucket update under a monotone clock: the allowed count plus the new
token balance grows by at most the refill, the balance stays within
`[0, 120]`, and `last_update` advances to the check time. -/
theorem rateBucketStep_spec (r : RateData) (t : ℚ) (hlu : r.last_update ≤ t)
    (h0 : 0 ≤ r.tokens) (h120 : r.tokens ≤ 120) :
    ((if (rateBucketStep r t).1 then (1 : ℤ) else 0) + (rateBucketStep r t).2.tokens
        ≤ r.tokens + ⌊(t - r.last_update) * 2⌋)
  ∧ 0 ≤ (rateBucketStep r t).2.tokens
  ∧ (rateBucketStep r t).2.tokens ≤ 120
  ∧ (rateBucketStep r t).2.last_update = t := by
  have hd : (0:ℚ) ≤ t - r.last_update := by linarith
  have heq : (t - r.last_update) * ((maxMessagesPerMinute : ℚ) / 60) = (t - r.last_update) * 2 := by
    norm_num [maxMessagesPerMinute]
  have hmul : (0:ℚ) ≤ (t - r.last_update) * ((maxMessagesPerMinute : ℚ) / 60) := by
    rw [heq]; linarith
  have hadd : pyInt ((t - r.last_update) * ((maxMessagesPerMinute : ℚ) / 60)) =
      ⌊(t - r.last_update) * 2⌋ := by
    rw [pyInt_of_nonneg _ hmul, heq]
  have haddnn : 0 ≤ ⌊(t - r.last_update) * 2⌋ := Int.floor_nonneg.mpr (by rw [← heq]; exact hmul)
  have hml := min_le_left ((maxMessagesPerMinute : ℤ))
    (r.tokens + pyInt ((t - r.last_update) * ((maxMessagesPerMinute : ℚ) / 60)))
  have hmr := min_le_right ((maxMessagesPerMinute : ℤ))
    (r.tokens + pyInt ((t - r.last_update) * ((maxMessagesPerMinute : ℚ) / 60)))
  have hm0 : (0 : ℤ) ≤ min ((maxMessagesPerMinute : ℤ))
      (r.tokens + pyInt ((t - r.last_update) * ((maxMessagesPerMinute : ℚ) / 60))) := by
    apply le_min
    · norm_num [maxMessagesPerMinute]
    · rw [hadd]; omega
  have hmm : ((maxMessagesPerMinute : ℤ)) = 120 := by norm_num [maxMessagesPerMinute]
  rw [hadd] at hml hmr hm0
  rw [hmm] at hml hmr hm0
  simp only [rateBucketStep]
  split
  next hpos =>
    rw [hadd, hmm] at hpos
    refine ⟨?_, ?_, ?_, rfl⟩
    · dsimp only
      rw [hadd, hmm]
      norm_num
    · dsimp only
      rw [hadd, hmm]
      linarith
    · dsimp only
      rw [hadd, hmm]
      linarith
  next hpos =>
    rw [hadd, hmm] at hpos
    refine ⟨?_, ?_, ?_, rfl⟩
    · dsimp only
      rw [hadd, hmm]
      norm_num
    · dsimp only
      rw [hadd, hmm]
      linarith
    · dsimp only
      rw [hadd, hmm]
      linarith

/-- A run of bucket updates from an in-range bucket under a monotone clock:
the total allowed count plus the final balance is bounded by the initial
balance plus the refill accrued across the whole span. -/
theorem rlRun_some_bound : ∀ (ts : List ℚ) (r : RateData),
    List.Chain (fun a b => a ≤ b) r.last_update ts → 0 ≤ r.tokens → r.tokens ≤ 120 →
    ∃ rE, (rlRun (some r) ts).2 = some rE
      ∧ ((rlRun (some r) ts).1 : ℤ) + rE.tokens ≤
          r.tokens + ⌊(rE.last_update - r.last_update) * 2⌋
      ∧ 0 ≤ rE.tokens ∧ rE.tokens ≤ 120
      ∧ rE.last_update = ts.getLast?.getD r.last_update := by
  intro ts
  induction ts with
  | nil =>
    intro r _ h0 h120
    refine ⟨r, rfl, ?_, h0, h120, rfl⟩
    have h1 : (rlRun (some r) []).1 = 0 := rfl
    rw [h1]
    simp
  | cons t ts ih =>
    intro r hch h0 h120
    have hle : r.last_update ≤ t := (List.chain_cons.mp hch).1
    have hch2 := (List.chain_cons.mp hch).2
    obtain ⟨hb, hnn, hcap, hlu⟩ := rateBucketStep_spec r t hle h0 h120
    have hch3 : List.Chain (fun a b => a ≤ b) (rateBucketStep r t).2.last_update ts := by
      rw [hlu]; exact hch2
    obtain ⟨rE, hE2, hEb, hE0, hEcap, hElast⟩ := ih (rateBucketStep r t).2 hch3 hnn hcap
    have hrun2 : (rlRun (some r) (t :: ts)).2 = (rlRun (some (rateBucketStep r t).2) ts).2 := by
      simp [rlRun, rlNext]
    have hrun1 : (rlRun (some r) (t :: ts)).1 =
        (if (rateBucketStep r t).1 then 1 else 0) + (rlRun (some (rateBucketStep r t).2) ts).1 := by
      simp [rlRun, rlNext]
    refine ⟨rE, by rw [hrun2]; exact hE2, ?_, hE0, hEcap, ?_⟩
    · rw [hrun1]
      have hfl : ⌊(t - r.last_update) * 2⌋ + ⌊(rE.last_update - t) * 2⌋ ≤
          ⌊(rE.last_update - r.last_update) * 2⌋ := by
        have h1 := floor_add_le_floor ((t - r.last_update) * 2) ((rE.last_update - t) * 2)
        have h2 : (t - r.last_update) * 2 + (rE.last_update - t) * 2 =
            (rE.last_update - r.last_update) * 2 := by ring
        rw [h2] at h1
        exact h1
      rw [hlu] at hEb
      cases ha : (rateBucketStep r t).1 with
      | true =>
        rw [ha] at hb
        norm_num at hb ⊢
        linarith
      | false =>
        rw [ha] at hb
        norm_num at hb ⊢
        linarith
    · rw [hlu] at hElast
      have := getLast?_cons_eq t ts rE.last_update hElast
      rw [this]
      rfl

/-- Reachability: after any monotone sequence of checks from scratch, the
bucket is absent only when no check happened, and otherwise holds between 0
and 120 tokens with `last_update` equal to the last check time. -/
theorem rlRun_none_reach (ts : List ℚ) (hch : List.Chain' (fun a b => a ≤ b) ts) :
    (ts = [] ∧ (rlRun none ts).2 = none) ∨
    (∃ r, (rlRun none ts).2 = some r ∧ 0 ≤ r.tokens ∧ r.tokens ≤ 120 ∧
      ts.getLast? = some r.last_update) := by
  cases ts with
  | nil => exact Or.inl ⟨rfl, rfl⟩
  | cons t ts =>
    right
    have hch2 : List.Chain (fun a b => a ≤ b) t ts := hch
    obtain ⟨rE, hE2, hEb, hE0, hEcap, hElast⟩ :=
      rlRun_some_bound ts ⟨120, t, 0⟩ hch2 (by norm_num) (by norm_num)
    have hrun2 : (rlRun none (t :: ts)).2 = (rlRun (some ⟨120, t, 0⟩) ts).2 := by
      simp [rlRun, rlNext, maxMessagesPerMinute]
    refine ⟨rE, by rw [hrun2]; exact hE2, hE0, hEcap, ?_⟩
    exact getLast?_cons_eq t ts rE.last_update hElast

/-- C6: (1) over any monotone sequence of `_check_rate_limit` calls on a
connection, the number of allowed calls within any contiguous window
spanning less than 60 seconds never exceeds the capacity (120) plus the
initial burst (the 120 tokens a fresh bucket starts with, whose creating
call is itself not charged): at most 240 allows; (2) the bucket balance
never exceeds the capacity `max_messages_per_minute` and never goes
negative; (3) the refill is computed lazily at each check from the elapsed
wall-clock time at rate `max_messages_per_minute / 60` tokens per second
(truncated to an integer and capped at the capacity). -/
theorem c6_rate_limiting :
    (∀ (pre win : List ℚ),
        List.Chain' (fun a b => a ≤ b) (pre ++ win) →
        (∀ a b, win.head? = some a → win.getLast? = some b → b - a < 60) →
        (rlRun (rlRun none pre).2 win).1 ≤ 240)
  ∧ (∀ (ts : List ℚ) (r : RateData),
        List.Chain' (fun a b => a ≤ b) ts → (rlRun none ts).2 = some r →
        0 ≤ r.tokens ∧ r.tokens ≤ (maxMessagesPerMinute : ℤ))
  ∧ (∀ (r : RateData) (t : ℚ),
        (rateBucketStep r t).2.tokens + (if (rateBucketStep r t).1 then 1 else 0) =
          min (maxMessagesPerMinute : ℤ)
            (r.tokens + pyInt ((t - r.last_update) * ((maxMessagesPerMinute : ℚ) / 60)))) := by
  refine ⟨?_, ?_, ?_⟩
  · intro pre win hch hspan
    obtain ⟨hpre, hwin, hedge⟩ := List.chain'_append.mp hch
    rcases rlRun_none_reach pre hpre with ⟨hnil, hnone⟩ | ⟨r, hsome, hr0, hrcap, hrlast⟩
    · rw [hnone]
      cases win with
      | nil => simp [rlRun]
      | cons t ts =>
        have hch2 : List.Chain (fun a b => a ≤ b) t ts := hwin
        obtain ⟨rE, hE2, hEb, hE0, hEcap, hElast⟩ :=
          rlRun_some_bound ts ⟨120, t, 0⟩ hch2 (by norm_num) (by norm_num)
        have hlastc : (t :: ts).getLast? = some rE.last_update :=
          getLast?_cons_eq t ts rE.last_update hElast
        have hspan2 : rE.last_update - t < 60 := hspan t rE.last_update rfl hlastc
        have hfl : ⌊(rE.last_update - t) * 2⌋ ≤ 119 := by
          have hx : (rE.last_update - t) * 2 < 120 := by linarith
          have h2 : ⌊(rE.last_update - t) * 2⌋ < (120 : ℤ) := Int.floor_lt.mpr (by exact_mod_cast hx)
          omega
        have hcount : (rlRun none (t :: ts)).1 = 1 + (rlRun (some ⟨120, t, 0⟩) ts).1 := by
          simp [rlRun, rlNext, maxMessagesPerMinute]
        rw [hcount]
        have hcnt : ((rlRun (some ⟨120, t, 0⟩) ts).1 : ℤ) ≤ 239 := by
          have : ((rlRun (some ⟨120, t, 0⟩) ts).1 : ℤ) + rE.tokens ≤
              120 + ⌊(rE.last_update - t) * 2⌋ := hEb
          linarith
        omega
    · rw [hsome]
      cases win with
      | nil => simp [rlRun]
      | cons t ts =>
        have hle : r.last_update ≤ t := by
          apply hedge r.last_update _ t
          · rfl
          · rw [hrlast]; rfl
        obtain ⟨hb, hnn, hcap, hlu⟩ := rateBucketStep_spec r t hle hr0 hrcap
        have hch2 : List.Chain (fun a b => a ≤ b) t ts := hwin
        have hch3 : List.Chain (fun a b => a ≤ b) (rateBucketStep r t).2.last_update ts := by
          rw [hlu]; exact hch2
        obtain ⟨rE, hE2, hEb, hE0, hEcap, hElast⟩ :=
          rlRun_some_bound ts (rateBucketStep r t).2 hch3 hnn hcap
        rw [hlu] at hElast hEb
        have hlastc : (t :: ts).getLast? = some rE.last_update :=
          getLast?_cons_eq t ts rE.last_update hElast
        have hspan2 : rE.last_update - t < 60 := hspan t rE.last_update rfl hlastc
        have hfl : ⌊(rE.last_update - t) * 2⌋ ≤ 119 := by
          have hx : (rE.last_update - t) * 2 < 120 := by linarith
          have h2 : ⌊(rE.last_update - t) * 2⌋ < (120 : ℤ) := Int.floor_lt.mpr (by exact_mod_cast hx)
          omega
        have hcount : (rlRun (some r) (t :: ts)).1 =
            (if (rateBucketStep r t).1 then 1 else 0) +
              (rlRun (some (rateBucketStep r t).2) ts).1 := by
          simp [rlRun, rlNext]
        rw [hcount]
        have hcnt : ((rlRun (some (rateBucketStep r t).2) ts).1 : ℤ) ≤ 239 := by
          linarith
        cases ha : (rateBucketStep r t).1 <;> simp [ha] <;> omega
  · intro ts r hch hsome
    rcases rlRun_none_reach ts hch with ⟨-, hnone⟩ | ⟨r2, hsome2, h0, hcap, -⟩
    · rw [hnone] at hsome
      simp at hsome
    · rw [hsome2] at hsome
      have : r2 = r := by injection hsome
      subst this
      constructor
      · exact h0
      · simpa [maxMessagesPerMinute] using hcap
  · intro r t
    simp only [rateBucketStep]
    split
    next hpos =>
      dsimp only
      simp only [if_true, if_pos]
      ring
    next hpos =>
      dsimp only
      simp only [Bool.false_eq_true, if_false, if_neg]
      ring

/-- Witness for C6: an empty history and a single check at time 0 — the
window hypotheses hold and the theorem applies. -/
theorem c6_witness :
    (List.Chain' (fun a b => a ≤ b) (([] : List ℚ) ++ [0])) ∧
    (∀ a b : ℚ, ([0] : List ℚ).head? = some a → ([0] : List ℚ).getLast? = some b → b - a < 60) ∧
    (rlRun (rlRun none []).2 [0]).1 ≤ 240 := by
  have h1 : List.Chain' (fun a b : ℚ => a ≤ b) (([] : List ℚ) ++ [0]) := by
    simp
  have h2 : ∀ a b : ℚ, ([0] : List ℚ).head? = some a → ([0] : List ℚ).getLast? = some b →
      b - a < 60 := by
    intro a b ha hb
    simp [List.getLast?] at ha hb
    rw [← ha, ← hb]
    norm_num
  exact ⟨h1, h2, c6_rate_limiting.1 [] [0] h1 h2⟩

/-!
Claim C5 — disconnect and the manager indexes.
-/

theorem filter_idem {α : Type} (l : List α) (p : α → Bool) :
    (l.filter p).filter p = l.filter p :=
  List.filter_eq_self.mpr (fun a ha => (List.mem_filter.mp ha).2)

theorem alset_alset_same {V : Type} (l : List (String × V)) (k : String) (v : V) :
    alset (alset l k v) k v = alset l k v := by
  have hupd : ∀ p : String × V,
      (fun p : String × V => if p.1 = k then (k, v) else p)
        ((fun p : String × V => if p.1 = k then (k, v) else p) p) =
      (fun p : String × V => if p.1 = k then (k, v) else p) p := by
    intro p
    by_cases hp : p.1 = k
    · simp [hp]
    · simp [hp]
  unfold alset
  by_cases hs : (alget l k).isSome
  · rw [if_pos hs]
    have h2 : (alget (l.map (fun p => if p.1 = k then (k, v) else p)) k).isSome := by
      rw [alget_map_update l k v hs]
      rfl
    rw [if_pos h2, List.map_map]
    apply List.map_congr_left
    intro p _
    exact hupd p
  · rw [if_neg hs]
    have hn : alget l k = none := by
      cases hval : alget l k
      · rfl
      · simp [hval] at hs
    have h2 : (alget (l ++ [(k, v)]) k).isSome := by
      rw [alget_append_of_none _ _ _ hn]
      simp [alget]
    rw [if_pos h2, List.map_append]
    congr 1
    · conv_rhs => rw [← List.map_id l]
      apply List.map_congr_left
      intro p hp
      have := (alget_eq_none_iff l k).mp hn p hp
      simp [this]
    · simp [alget]

/-- C5 (amended): `disconnect(connection_id, user_id)` removes the
connection from `active_connections` and (when a user id is supplied) from
that user's `user_connections` entry, but it leaves `connection_roles`,
`connection_health`, `rate_limits`, `message_history` and `session_state`
completely untouched — those indexes retain dangling entries for the
disconnected connection. Repeated disconnect with the same arguments is a
no-op. -/
theorem c5_disconnect_partial (st : Manager) (c : ConnId) (u : Option UserId) :
    (disconnectM st c u).active_connections = st.active_connections.filter (fun x => !(x == c))
  ∧ (disconnectM st c u).connection_roles = st.connection_roles
  ∧ (disconnectM st c u).connection_health = st.connection_health
  ∧ (disconnectM st c u).rate_limits = st.rate_limits
  ∧ (disconnectM st c u).message_history = st.message_history
  ∧ (disconnectM st c u).session_state = st.session_state
  ∧ disconnectM (disconnectM st c u) c u = disconnectM st c u := by
  cases u with
  | none =>
    refine ⟨rfl, rfl, rfl, rfl, rfl, rfl, ?_⟩
    show ({ { st with active_connections := st.active_connections.filter (fun x => !(x == c)) }
        with active_connections :=
          (st.active_connections.filter (fun x => !(x == c))).filter (fun x => !(x == c)) }
        : Manager) =
      { st with active_connections := st.active_connections.filter (fun x => !(x == c)) }
    rw [filter_idem]
  | some uid =>
    cases hv : alget st.user_connections uid with
    | none =>
      have h1 : disconnectM st c (some uid) =
          { st with active_connections := st.active_connections.filter (fun x => !(x == c)) } := by
        simp only [disconnectM]
        rw [hv]
      rw [h1]
      refine ⟨rfl, rfl, rfl, rfl, rfl, rfl, ?_⟩
      simp only [disconnectM]
      rw [hv, filter_idem]
    | some conns =>
      by_cases hemp : (conns.filter (fun x => !(x == c))).isEmpty
      · have h1 : disconnectM st c (some uid) =
            { st with
              active_connections := st.active_connections.filter (fun x => !(x == c)),
              user_connections := aldel st.user_connections uid } := by
          simp only [disconnectM]
          rw [hv]
          dsimp only
          rw [if_pos hemp]
        rw [h1]
        refine ⟨rfl, rfl, rfl, rfl, rfl, rfl, ?_⟩
        simp only [disconnectM]
        rw [alget_aldel_self, filter_idem]
      · have h1 : disconnectM st c (some uid) =
            { st with
              active_connections := st.active_connections.filter (fun x => !(x == c)),
              user_connections :=
                alset st.user_connections uid (conns.filter (fun x => !(x == c))) } := by
          simp only [disconnectM]
          rw [hv]
          dsimp only
          rw [if_neg hemp]
        rw [h1]
        refine ⟨rfl, rfl, rfl, rfl, rfl, rfl, ?_⟩
        simp only [disconnectM]
        rw [alget_alset_self]
        dsimp only
        rw [filter_idem, filter_idem]
        rw [if_neg hemp, alset_alset_same]

/-- Witness for C5 (the statement is hypothesis-free; this instantiates it
at a concrete reached state). -/
theorem c5_witness :
    (disconnectM c5Connected "c1" (some "u1")).active_connections =
      c5Connected.active_connections.filter (fun x => !(x == "c1"))
  ∧ (disconnectM c5Connected "c1" (some "u1")).connection_roles = c5Connected.connection_roles
  ∧ (disconnectM c5Connected "c1" (some "u1")).connection_health = c5Connected.connection_health
  ∧ (disconnectM c5Connected "c1" (some "u1")).rate_limits = c5Connected.rate_limits
  ∧ (disconnectM c5Connected "c1" (some "u1")).message_history = c5Connected.message_history
  ∧ (disconnectM c5Connected "c1" (some "u1")).session_state = c5Connected.session_state
  ∧ disconnectM (disconnectM c5Connected "c1" (some "u1")) "c1" (some "u1") =
      disconnectM c5Connected "c1" (some "u1") :=
  c5_disconnect_partial c5Connected "c1" (some "u1")

/-- C5 counterexample: connect `c1` for user `u1` with role `recruiter`,
then disconnect it (with the user id, as the endpoint does). The claim says
no manager index retains an entry for `c1`; but the role, health and
rate-limit indexes all still hold entries for `c1` after the disconnect,
even though the connection is gone from `active_connections`. -/
theorem c5_counterexample :
    alget (disconnectM c5Connected "c1" (some "u1")).connection_roles "c1" = some "recruiter"
  ∧ (alget (disconnectM c5Connected "c1" (some "u1")).connection_health "c1").isSome = true
  ∧ (alget (disconnectM c5Connected "c1" (some "u1")).rate_limits "c1").isSome = true
  ∧ (disconnectM c5Connected "c1" (some "u1")).active_connections = [] := by
  refine ⟨rfl, rfl, rfl, rfl⟩

/-!
Claim C2 — replay on reconnect. Helper lemmas first: the behaviour of the
rate limiter when all calls happen at one instant (as they do during the
replay loop of `connect`), then the send loop.
-/

theorem disconnectM_frame (st : Manager) (c : ConnId) (u : Option UserId) :
    (disconnectM st c u).rate_limits = st.rate_limits
  ∧ (disconnectM st c u).message_queue = st.message_queue := by
  cases u with
  | none => exact ⟨rfl, rfl⟩
  | some uid =>
    simp only [disconnectM]
    cases hv : alget st.user_connections uid with
    | none => exact ⟨rfl, rfl⟩
    | some conns =>
      dsimp only
      by_cases hemp : (conns.filter (fun x => !(x == c))).isEmpty
      · rw [if_pos hemp]
        exact ⟨rfl, rfl⟩
      · rw [if_neg hemp]
        exact ⟨rfl, rfl⟩

theorem rateBucketStep_same (tk : ℤ) (now : ℚ) (w : ℕ) (h120 : tk ≤ 120) :
    rateBucketStep ⟨tk, now, w⟩ now =
      if 0 < tk then (true, ⟨tk - 1, now, w⟩) else (false, ⟨tk, now, w + 1⟩) := by
  have hz : pyInt ((now - now) * ((maxMessagesPerMinute : ℚ) / 60)) = 0 := by
    rw [sub_self, zero_mul]
    simp [pyInt]
  have hmin : min ((maxMessagesPerMinute : ℤ)) (tk + 0) = tk := by
    rw [add_zero]
    apply min_eq_right
    norm_num [maxMessagesPerMinute]
    exact h120
  simp only [rateBucketStep, hz, hmin]

theorem checkRateLimit_some_pos (st : Manager) (c : ConnId) (now : ℚ) (tk : ℤ) (w : ℕ)
    (hb : alget st.rate_limits c = some ⟨tk, now, w⟩) (hpos : 0 < tk) (h120 : tk ≤ 120) :
    checkRateLimit st c now =
      (true, { st with rate_limits := alset st.rate_limits c ⟨tk - 1, now, w⟩ }) := by
  simp only [checkRateLimit, hb, rlNext]
  rw [rateBucketStep_same tk now w h120, if_pos hpos]
  simp

theorem checkRateLimit_zero_proj (st : Manager) (c : ConnId) (now : ℚ) (w : ℕ)
    (hb : alget st.rate_limits c = some ⟨0, now, w⟩) :
    (checkRateLimit st c now).1 = false
  ∧ alget (checkRateLimit st c now).2.rate_limits c = some ⟨0, now, w + 1⟩
  ∧ (checkRateLimit st c now).2.message_queue = st.message_queue := by
  simp only [checkRateLimit, hb, rlNext]
  rw [rateBucketStep_same 0 now w (by norm_num), if_neg (lt_irrefl 0)]
  dsimp only
  by_cases hw : 3 < w + 1
  · rw [if_pos (by exact ⟨rfl, hw⟩)]
    refine ⟨rfl, ?_, ?_⟩
    · rw [(disconnectM_frame _ _ _).1]
      dsimp only
      exact alget_alset_self _ _ _
    · rw [(disconnectM_frame _ _ _).2]
  · rw [if_neg (by intro hcon; exact hw hcon.2)]
    refine ⟨rfl, ?_, rfl⟩
    dsimp only
    exact alget_alset_self _ _ _

theorem sendPersonal_ok_existing (tr : Transport) (st : Manager) (m : Msg) (c : ConnId)
    (now : ℚ) (tk : ℤ) (w : ℕ)
    (hb : alget st.rate_limits c = some ⟨tk, now, w⟩) (hpos : 0 < tk) (h120 : tk ≤ 120)
    (hc : st.active_connections.contains c = true) (htr : tr c = true) :
    sendPersonal tr st m c now true =
      ({ st with rate_limits := alset st.rate_limits c ⟨tk - 1, now, w⟩,
                 message_history := (alset st.message_history c
                   (appendHistory ((alget st.message_history c).getD []) (fillMsg m now))) },
       [(c, fillMsg m now)]) := by
  have hmem : c ∈ st.active_connections := List.mem_of_elem_eq_true hc
  simp only [sendPersonal, checkRateLimit_some_pos st c now tk w hb hpos h120]
  simp [hc, htr, hmem]

theorem sendPersonal_init_none (tr : Transport) (st : Manager) (m : Msg) (c : ConnId)
    (now : ℚ)
    (hb : alget st.rate_limits c = none)
    (hc : st.active_connections.contains c = true) (htr : tr c = true) :
    sendPersonal tr st m c now true =
      ({ st with rate_limits := (alset st.rate_limits c
            { tokens := (maxMessagesPerMinute : ℤ), last_update := now, warnings := 0 }),
                 message_history := (alset st.message_history c
                   (appendHistory ((alget st.message_history c).getD []) (fillMsg m now))) },
       [(c, fillMsg m now)]) := by
  have hck : checkRateLimit st c now =
      (true, { st with rate_limits := (alset st.rate_limits c
        { tokens := (maxMessagesPerMinute : ℤ), last_update := now, warnings := 0 }) }) := by
    simp only [checkRateLimit, hb, rlNext]
    simp
  have hmem : c ∈ st.active_connections := List.mem_of_elem_eq_true hc
  simp only [sendPersonal, hck]
  simp [hc, htr, hmem]

theorem sendPersonal_denied (tr : Transport) (st : Manager) (m : Msg) (c : ConnId)
    (now : ℚ) (w : ℕ)
    (hb : alget st.rate_limits c = some ⟨0, now, w⟩) :
    (sendPersonal tr st m c now true).2 = []
  ∧ alget (sendPersonal tr st m c now true).1.rate_limits c = some ⟨0, now, w + 1⟩
  ∧ (sendPersonal tr st m c now true).1.message_queue = st.message_queue := by
  obtain ⟨h1, h2, h3⟩ := checkRateLimit_zero_proj st c now w hb
  simp only [sendPersonal, h1]
  simp only [eq_self_iff_true, if_true]
  exact ⟨trivial, h2, h3⟩

/-- The replay loop when the bucket has enough tokens for every message and
the transport is healthy: every message is delivered in order (with ids
filled), one token per message is consumed, and no index other than
`rate_limits` and `message_history` changes. -/
theorem sendList_ok (tr : Transport) (c : ConnId) (now : ℚ) :
    ∀ (ms : List Msg) (st : Manager) (tk : ℤ),
    alget st.rate_limits c = some ⟨tk, now, 0⟩ → (ms.length : ℤ) ≤ tk → tk ≤ 120 →
    st.active_connections.contains c = true → tr c = true →
    (sendList tr c now ms st).2 = ms.map (fun m => (c, fillMsg m now))
  ∧ alget (sendList tr c now ms st).1.rate_limits c = some ⟨tk - ms.length, now, 0⟩
  ∧ (sendList tr c now ms st).1.active_connections = st.active_connections
  ∧ (sendList tr c now ms st).1.user_connections = st.user_connections
  ∧ (sendList tr c now ms st).1.message_queue = st.message_queue
  ∧ (sendList tr c now ms st).1.reconnect_tokens = st.reconnect_tokens
  ∧ (sendList tr c now ms st).1.connection_roles = st.connection_roles
  ∧ (sendList tr c now ms st).1.connection_health = st.connection_health := by
  intro ms
  induction ms with
  | nil =>
    intro st tk hb _ _ _ _
    refine ⟨rfl, ?_, rfl, rfl, rfl, rfl, rfl, rfl⟩
    simpa using hb
  | cons m rest ih =>
    intro st tk hb hlen h120 hc htr
    have hpos : 0 < tk := by
      simp only [List.length_cons] at hlen
      push_cast at hlen
      omega
    have hsend := sendPersonal_ok_existing tr st m c now tk 0 hb hpos h120 hc htr
    have hb2 : alget (sendPersonal tr st m c now true).1.rate_limits c =
        some ⟨tk - 1, now, 0⟩ := by
      rw [hsend]
      exact alget_alset_self _ _ _
    have hlen2 : ((rest.length : ℤ)) ≤ tk - 1 := by
      simp only [List.length_cons] at hlen
      push_cast at hlen
      omega
    have hc2 : (sendPersonal tr st m c now true).1.active_connections.contains c = true := by
      rw [hsend]
      exact hc
    obtain ⟨ho, hr, ha, hu, hq, ht, hro, hh⟩ :=
      ih (sendPersonal tr st m c now true).1 (tk - 1) hb2 hlen2 (by omega) hc2 htr
    have hunfold : sendList tr c now (m :: rest) st =
        ((sendList tr c now rest (sendPersonal tr st m c now true).1).1,
         (sendPersonal tr st m c now true).2 ++
           (sendList tr c now rest (sendPersonal tr st m c now true).1).2) := rfl
    rw [hunfold]
    refine ⟨?_, ?_, ?_, ?_, ?_, ?_, ?_, ?_⟩
    · dsimp only
      rw [ho, hsend]
      simp
    · dsimp only
      rw [hr]
      congr 2
      push_cast [List.length_cons]
      ring
    · dsimp only
      rw [ha, hsend]
    · dsimp only
      rw [hu, hsend]
    · dsimp only
      rw [hq, hsend]
    · dsimp only
      rw [ht, hsend]
    · dsimp only
      rw [hro, hsend]
    · dsimp only
      rw [hh, hsend]

/-- The replay loop once the bucket is empty (all checks at one instant, so
nothing refills): every message is silently dropped, one warning per
message accrues, and the message queue is untouched. -/
theorem sendList_denied (tr : Transport) (c : ConnId) (now : ℚ) :
    ∀ (ms : List Msg) (st : Manager) (w : ℕ),
    alget st.rate_limits c = some ⟨0, now, w⟩ →
    (sendList tr c now ms st).2 = []
  ∧ alget (sendList tr c now ms st).1.rate_limits c = some ⟨0, now, w + ms.length⟩
  ∧ (sendList tr c now ms st).1.message_queue = st.message_queue := by
  intro ms
  induction ms with
  | nil =>
    intro st w hb
    refine ⟨rfl, ?_, rfl⟩
    simpa using hb
  | cons m rest ih =>
    intro st w hb
    obtain ⟨h1, h2, h3⟩ := sendPersonal_denied tr st m c now w hb
    obtain ⟨ho, hr, hq⟩ := ih (sendPersonal tr st m c now true).1 (w + 1) h2
    have hunfold : sendList tr c now (m :: rest) st =
        ((sendList tr c now rest (sendPersonal tr st m c now true).1).1,
         (sendPersonal tr st m c now true).2 ++
           (sendList tr c now rest (sendPersonal tr st m c now true).1).2) := rfl
    rw [hunfold]
    refine ⟨?_, ?_, ?_⟩
    · dsimp only
      rw [ho, h1]
      rfl
    · dsimp only
      rw [hr]
      congr 2
      simp only [List.length_cons]
      omega
    · dsimp only
      rw [hq, h3]

theorem contains_append_self (l : List String) (c : String) : (l ++ [c]).contains c = true := by
  have hmem : c ∈ l ++ [c] := by simp
  exact List.elem_eq_true_of_mem hmem


/-- C2 (amended): connecting with `user_id = uid` when that user has `N`
queued messages (`1 ≤ N ≤ 120`) and no live connection, on a fresh
connection with a healthy transport, delivers exactly those `N` messages, in
enqueue (FIFO) order, before the `connection_established` welcome frame
(which carries the freshly rotated reconnect token), and the user's queue
entry is gone immediately afterwards. The bound `N ≤ 120` is forced by the
per-connection token bucket the replay passes through: the bucket-creating
first send is free, each further send consumes a token, and the welcome
frame needs one token too. -/
theorem c2_replay_on_reconnect (tr : Transport) (st : Manager) (c : ConnId) (uid : UserId)
    (msgs : List Msg) (role : Option String) (now : ℚ) (ftok : String)
    (hq : alget st.message_queue uid = some msgs)
    (hn : 1 ≤ msgs.length) (hmax : msgs.length ≤ 120)
    (hact : st.active_connections.contains c = false)
    (hrate : alget st.rate_limits c = none)
    (htr : tr c = true) :
    (connect tr st c (some uid) role now ftok).2 =
      msgs.map (fun m => (c, fillMsg m now)) ++ [(c, fillMsg (welcomeMsg c (some ftok)) now)]
  ∧ alget (connect tr st c (some uid) role now ftok).1.message_queue uid = none := by
  obtain ⟨m, rest, rfl⟩ : ∃ m rest, msgs = m :: rest := by
    cases msgs with
    | nil => simp at hn
    | cons a b => exact ⟨a, b, rfl⟩
  have hlen119 : rest.length ≤ 119 := by
    simp only [List.length_cons] at hmax
    omega
  set stC : Manager := { st with
    active_connections := st.active_connections ++ [c],
    user_connections := (alset st.user_connections uid
      (if ((alget st.user_connections uid).getD []).contains c
       then (alget st.user_connections uid).getD []
       else ((alget st.user_connections uid).getD []) ++ [c])),
    message_queue := aldel st.message_queue uid } with hstC
  set SL := sendList tr c now (m :: rest) stC with hSL
  set stD : Manager := (match role with
    | none => SL.1
    | some ro => { SL.1 with connection_roles := alset SL.1.connection_roles c ro }) with hstDdef
  set stF : Manager := { stD with
    connection_health := alset stD.connection_health c { connected_at := now },
    reconnect_tokens := alset stD.reconnect_tokens uid ftok } with hstF
  set WG := sendPersonal tr stF (welcomeMsg c (alget stF.reconnect_tokens uid)) c now true
    with hWG
  have hconn : connect tr st c (some uid) role now ftok = (WG.1, SL.2 ++ WG.2) := by
    rw [hWG, hstF, hstDdef, hSL, hstC]
    simp only [connect, hact, Bool.false_eq_true, if_false]
    rw [hq]
  have hsplit : ∀ stX : Manager, sendList tr c now (m :: rest) stX =
      ((sendList tr c now rest (sendPersonal tr stX m c now true).1).1,
       (sendPersonal tr stX m c now true).2 ++
         (sendList tr c now rest (sendPersonal tr stX m c now true).1).2) := fun _ => rfl
  have hsend1 := sendPersonal_init_none tr stC m c now
    (show alget stC.rate_limits c = none from hrate)
    (show stC.active_connections.contains c = true from contains_append_self _ _) htr
  have hout1 : (sendPersonal tr stC m c now true).2 = [(c, fillMsg m now)] := by
    rw [hsend1]
  have hb2 : alget (sendPersonal tr stC m c now true).1.rate_limits c =
      some ⟨(maxMessagesPerMinute : ℤ), now, 0⟩ := by
    rw [hsend1]
    exact alget_alset_self _ _ _
  have hcont2 : (sendPersonal tr stC m c now true).1.active_connections.contains c = true := by
    rw [hsend1]
    exact contains_append_self st.active_connections c
  obtain ⟨ho, hr, ha, hu, hqq, ht, hro, hh⟩ := sendList_ok tr c now rest
    ((sendPersonal tr stC m c now true).1) ((maxMessagesPerMinute : ℤ)) hb2
    (by norm_num [maxMessagesPerMinute]; omega)
    (by norm_num [maxMessagesPerMinute]) hcont2 htr
  have hSL2 : SL.2 = (sendPersonal tr stC m c now true).2 ++
      (sendList tr c now rest (sendPersonal tr stC m c now true).1).2 := by
    rw [hSL, hsplit stC]
  have hSL1 : SL.1 = (sendList tr c now rest (sendPersonal tr stC m c now true).1).1 := by
    rw [hSL, hsplit stC]
  obtain ⟨hD_rate, hD_act, hD_queue⟩ : stD.rate_limits = SL.1.rate_limits
      ∧ stD.active_connections = SL.1.active_connections
      ∧ stD.message_queue = SL.1.message_queue := by
    rw [hstDdef]
    cases role with
    | none => exact ⟨rfl, rfl, rfl⟩
    | some ro => exact ⟨rfl, rfl, rfl⟩
  have htokF : alget stF.reconnect_tokens uid = some ftok := by
    rw [hstF]
    exact alget_alset_self _ _ _
  have hbF : alget stF.rate_limits c =
      some ⟨(maxMessagesPerMinute : ℤ) - rest.length, now, 0⟩ := by
    rw [hstF]
    show alget stD.rate_limits c = _
    rw [hD_rate, hSL1]
    exact hr
  have hcF : stF.active_connections.contains c = true := by
    rw [hstF]
    show stD.active_connections.contains c = true
    rw [hD_act, hSL1, ha]
    exact hcont2
  have hW := sendPersonal_ok_existing tr stF (welcomeMsg c (alget stF.reconnect_tokens uid))
    c now ((maxMessagesPerMinute : ℤ) - rest.length) 0 hbF
    (by norm_num [maxMessagesPerMinute] <;> omega)
    (by norm_num [maxMessagesPerMinute] <;> omega) hcF htr
  have hWG2 : WG.2 = [(c, fillMsg (welcomeMsg c (some ftok)) now)] := by
    rw [hWG, hW]
    dsimp only
    rw [htokF]
  have hWGq : alget WG.1.message_queue uid = none := by
    rw [hWG, hW]
    show alget stF.message_queue uid = none
    rw [hstF]
    show alget stD.message_queue uid = none
    rw [hD_queue, hSL1, hqq]
    rw [hsend1]
    show alget (aldel st.message_queue uid) uid = none
    exact alget_aldel_self _ _
  rw [hconn]
  constructor
  · show SL.2 ++ WG.2 = _
    rw [hSL2, hout1, ho, hWG2]
    simp
  · show alget WG.1.message_queue uid = none
    exact hWGq

theorem sendList_append (tr : Transport) (c : ConnId) (now : ℚ) (as bs : List Msg) :
    ∀ st : Manager, sendList tr c now (as ++ bs) st =
      ((sendList tr c now bs (sendList tr c now as st).1).1,
       (sendList tr c now as st).2 ++ (sendList tr c now bs (sendList tr c now as st).1).2) := by
  induction as with
  | nil =>
    intro st
    rfl
  | cons a t ih =>
    intro st
    show ((sendList tr c now (t ++ bs) (sendPersonal tr st a c now true).1).1,
        (sendPersonal tr st a c now true).2 ++
          (sendList tr c now (t ++ bs) (sendPersonal tr st a c now true).1).2) = _
    rw [ih]
    dsimp only
    show _ = ((sendList tr c now bs
        (sendList tr c now t (sendPersonal tr st a c now true).1).1).1,
      ((sendPersonal tr st a c now true).2 ++
          (sendList tr c now t (sendPersonal tr st a c now true).1).2) ++
        (sendList tr c now bs (sendList tr c now t (sendPersonal tr st a c now true).1).1).2)
    rw [List.append_assoc]

theorem manager_update_hf_rate (X : Manager) (h : List (ConnId × Health))
    (t : List (UserId × String)) :
    ({ X with connection_health := h, reconnect_tokens := t } : Manager).rate_limits =
      X.rate_limits := rfl

theorem manager_update_hf_queue (X : Manager) (h : List (ConnId × Health))
    (t : List (UserId × String)) :
    ({ X with connection_health := h, reconnect_tokens := t } : Manager).message_queue =
      X.message_queue := rfl

set_option maxRecDepth 4000 in
set_option maxHeartbeats 1000000 in
/-- Overflow helper for the C2 counterexample: with 122 queued messages,
`connect` puts exactly 121 frames on the wire — the first replay send
creates the bucket for free, the next 120 replay sends use up all 120
tokens, the 122nd queued message is dropped by the rate limiter, and so is
the welcome frame. -/
theorem c2_overflow (tr : Transport) (st : Manager) (c : ConnId) (uid : UserId)
    (now : ℚ) (ftok : String)
    (hq : alget st.message_queue uid = some (List.replicate 122 (c2QMsg 0)))
    (hact : st.active_connections.contains c = false)
    (hrate : alget st.rate_limits c = none)
    (htr : tr c = true) :
    ((connect tr st c (some uid) none now ftok).2).length = 121 := by
  set stC : Manager := { st with
    active_connections := st.active_connections ++ [c],
    user_connections := (alset st.user_connections uid
      (if ((alget st.user_connections uid).getD []).contains c
       then (alget st.user_connections uid).getD []
       else ((alget st.user_connections uid).getD []) ++ [c])),
    message_queue := aldel st.message_queue uid } with hstC
  set SL := sendList tr c now (List.replicate 122 (c2QMsg 0)) stC with hSL
  set stF : Manager := { SL.1 with
    connection_health := alset SL.1.connection_health c { connected_at := now },
    reconnect_tokens := alset SL.1.reconnect_tokens uid ftok } with hstF
  set WG := sendPersonal tr stF (welcomeMsg c (alget stF.reconnect_tokens uid)) c now true
    with hWG
  have hconn : connect tr st c (some uid) none now ftok = (WG.1, SL.2 ++ WG.2) := by
    rw [hWG, hstF, hSL, hstC]
    simp only [connect, hact, Bool.false_eq_true, if_false]
    rw [hq]
  have hsplit : sendList tr c now (List.replicate 122 (c2QMsg 0)) stC =
      ((sendList tr c now (List.replicate 121 (c2QMsg 0))
          (sendPersonal tr stC (c2QMsg 0) c now true).1).1,
       (sendPersonal tr stC (c2QMsg 0) c now true).2 ++
         (sendList tr c now (List.replicate 121 (c2QMsg 0))
           (sendPersonal tr stC (c2QMsg 0) c now true).1).2) := rfl
  have hsend1 := sendPersonal_init_none tr stC (c2QMsg 0) c now
    (show alget stC.rate_limits c = none from hrate)
    (show stC.active_connections.contains c = true from contains_append_self _ _) htr
  have hout1 : (sendPersonal tr stC (c2QMsg 0) c now true).2 = [(c, fillMsg (c2QMsg 0) now)] := by
    rw [hsend1]
  have hb2 : alget (sendPersonal tr stC (c2QMsg 0) c now true).1.rate_limits c =
      some ⟨(maxMessagesPerMinute : ℤ), now, 0⟩ := by
    rw [hsend1]
    exact alget_alset_self _ _ _
  have hcont2 : (sendPersonal tr stC (c2QMsg 0) c now true).1.active_connections.contains c
      = true := by
    rw [hsend1]
    exact contains_append_self st.active_connections c
  obtain ⟨ho, hr, ha, hu, hqq, ht, hro, hh⟩ := sendList_ok tr c now
    (List.replicate 120 (c2QMsg 0))
    ((sendPersonal tr stC (c2QMsg 0) c now true).1) ((maxMessagesPerMinute : ℤ)) hb2
    (by simp [maxMessagesPerMinute])
    (by norm_num [maxMessagesPerMinute]) hcont2 htr
  have hzero : (maxMessagesPerMinute : ℤ) - (List.replicate 120 (c2QMsg 0)).length = 0 := by
    simp [maxMessagesPerMinute]
  rw [hzero] at hr
  have hrep121 : List.replicate 121 (c2QMsg 0) =
      List.replicate 120 (c2QMsg 0) ++ [c2QMsg 0] := by
    rw [← List.replicate_succ']
  have happ := sendList_append tr c now (List.replicate 120 (c2QMsg 0)) [c2QMsg 0]
    ((sendPersonal tr stC (c2QMsg 0) c now true).1)
  obtain ⟨hdo, hdr, hdq⟩ := sendList_denied tr c now [c2QMsg 0]
    ((sendList tr c now (List.replicate 120 (c2QMsg 0))
      ((sendPersonal tr stC (c2QMsg 0) c now true).1)).1) 0 hr
  have hSL2 : SL.2 = [(c, fillMsg (c2QMsg 0) now)] ++
      (List.replicate 120 (c2QMsg 0)).map (fun m => (c, fillMsg m now)) := by
    rw [hSL, hsplit]
    dsimp only
    rw [hout1, hrep121, happ]
    dsimp only
    rw [ho, hdo]
    simp
  have hSL1rate : alget SL.1.rate_limits c = some ⟨0, now, 0 + 1⟩ := by
    rw [hSL, hsplit]
    dsimp only
    rw [hrep121, happ]
    dsimp only
    rw [hdr]
    simp
  have hbF : alget stF.rate_limits c = some ⟨0, now, 1⟩ := by
    rw [hstF, manager_update_hf_rate]
    simpa using hSL1rate
  obtain ⟨hW2, -, -⟩ := sendPersonal_denied tr stF
    (welcomeMsg c (alget stF.reconnect_tokens uid)) c now 1 hbF
  have hWG2 : WG.2 = [] := by
    rw [hWG]
    exact hW2
  rw [hconn]
  show (SL.2 ++ WG.2).length = 121
  rw [hSL2, hWG2]
  simp

/-- C2 counterexample: the concrete state `c2State` holds 122 queued
messages for user `u1` who has no live connection; the claim says a connect
for `u1` delivers all 122 queued messages (and then a welcome frame), but
the wire log of the connect holds only 121 frames — the 122nd queued
message and the welcome frame are dropped by the per-connection rate
limiter. -/
theorem c2_counterexample :
    alget c2State.message_queue "u1" = some (List.replicate 122 (c2QMsg 0))
  ∧ ((connect trAll c2State "c1" (some "u1") none 0 "tokA").2).length = 121 := by
  constructor
  · rfl
  · exact c2_overflow trAll c2State "c1" "u1" 0 "tokA" rfl rfl rfl rfl

/-- Witness for C2 (amended): one queued message, a fresh connection. -/
theorem c2_witness :
    (alget c2StateSmall.message_queue "u1" = some [c2QMsg 0])
  ∧ (1 ≤ ([c2QMsg 0] : List Msg).length)
  ∧ (([c2QMsg 0] : List Msg).length ≤ 120)
  ∧ (c2StateSmall.active_connections.contains "c1" = false)
  ∧ (alget c2StateSmall.rate_limits "c1" = none)
  ∧ (trAll "c1" = true)
  ∧ ((connect trAll c2StateSmall "c1" (some "u1") none 0 "tokA").2 =
      ([c2QMsg 0] : List Msg).map (fun m => ("c1", fillMsg m 0)) ++
        [("c1", fillMsg (welcomeMsg "c1" (some "tokA")) 0)]
    ∧ alget (connect trAll c2StateSmall "c1" (some "u1") none 0 "tokA").1.message_queue "u1"
        = none) := by
  refine ⟨rfl, by norm_num, by norm_num, rfl, rfl, rfl, ?_⟩
  exact c2_replay_on_reconnect trAll c2StateSmall "c1" "u1" [c2QMsg 0] none 0 "tokA"
    rfl (by norm_num) (by norm_num) rfl rfl rfl

/-!
Claim C4 — message-queue retention and (absence of a) size bound.
-/

theorem c4_retention_aux (now : ℚ) (u : String) (msgs : List Msg) :
    ∀ l : List (String × List Msg),
    alget (l.filterMap (fun p =>
        if (p.2.filter (fun m => decide (now - (24 * 60 * 60) < m.timestamp.getD now))).isEmpty
        then none
        else some (p.1,
          p.2.filter (fun m => decide (now - (24 * 60 * 60) < m.timestamp.getD now))))) u =
      some msgs →
    msgs ≠ [] ∧ ∀ m ∈ msgs, now - (24 * 60 * 60) < m.timestamp.getD now := by
  intro l
  induction l with
  | nil =>
    intro h2
    simp [alget] at h2
  | cons p t ih =>
    intro h2
    rw [List.filterMap_cons] at h2
    by_cases hk : (p.2.filter
        (fun m => decide (now - (24 * 60 * 60) < m.timestamp.getD now))).isEmpty
    · rw [if_pos hk] at h2
      exact ih h2
    · rw [if_neg hk] at h2
      by_cases hp : p.1 = u
      · simp only [alget, if_pos hp] at h2
        have hmsgs : msgs = p.2.filter
            (fun m => decide (now - (24 * 60 * 60) < m.timestamp.getD now)) := by
          simp at h2
          exact h2.symm
        constructor
        · rw [hmsgs]
          intro hcon
          rw [hcon] at hk
          exact hk rfl
        · intro m hm
          rw [hmsgs] at hm
          have := (List.mem_filter.mp hm).2
          exact of_decide_eq_true this
      · simp only [alget, if_neg hp] at h2
        exact ih h2

theorem c4_step0 :
    (handleRedisEvent trAll emptyManager c4Event 0).1 =
      { emptyManager with message_queue := [("u1", [redisMessage c4Event 0])] } := by
  have hstep : (handleRedisEvent trAll emptyManager c4Event 0).1 =
      cleanupMessageQueue
        { emptyManager with message_queue := [("u1", [redisMessage c4Event 0])] } 0 := rfl
  rw [hstep]
  have hkeep0 : ([redisMessage c4Event 0].filter
      (fun m => decide ((0 : ℚ) - (24 * 60 * 60) < m.timestamp.getD 0))) =
      [redisMessage c4Event 0] := by
    apply List.filter_eq_self.mpr
    intro m hm
    have hx : m = redisMessage c4Event 0 := by simpa using hm
    rw [hx]
    apply decide_eq_true
    show (0 : ℚ) - (24 * 60 * 60) < (some (0 : ℚ)).getD 0
    norm_num
  simp only [cleanupMessageQueue, List.filterMap_cons, List.filterMap_nil]
  rw [hkeep0]
  simp

theorem c4_step (q : List Msg) (hq : ∀ m ∈ q, m.timestamp = some 0) :
    (handleRedisEvent trAll { emptyManager with message_queue := [("u1", q)] } c4Event 0).1 =
      { emptyManager with message_queue := [("u1", q ++ [redisMessage c4Event 0])] } := by
  have hstep : (handleRedisEvent trAll
        { emptyManager with message_queue := [("u1", q)] } c4Event 0).1 =
      cleanupMessageQueue
        { emptyManager with message_queue := [("u1", q ++ [redisMessage c4Event 0])] } 0 := rfl
  rw [hstep]
  have hkeep : ((q ++ [redisMessage c4Event 0]).filter
      (fun m => decide ((0 : ℚ) - (24 * 60 * 60) < m.timestamp.getD 0))) =
      q ++ [redisMessage c4Event 0] := by
    apply List.filter_eq_self.mpr
    intro m hm
    rcases List.mem_append.mp hm with hmq | hmx
    · rw [hq m hmq]
      apply decide_eq_true
      show (0 : ℚ) - (24 * 60 * 60) < (some (0 : ℚ)).getD 0
      norm_num
    · have hx : m = redisMessage c4Event 0 := by simpa using hmx
      rw [hx]
      apply decide_eq_true
      show (0 : ℚ) - (24 * 60 * 60) < (some (0 : ℚ)).getD 0
      norm_num
  simp only [cleanupMessageQueue, List.filterMap_cons, List.filterMap_nil]
  rw [hkeep]
  have hne : (q ++ [redisMessage c4Event 0]).isEmpty = false := by
    simp
  rw [hne]
  simp

theorem c4StateN_eq : ∀ n : ℕ, c4StateN (n + 1) =
    { emptyManager with message_queue :=
        [("u1", List.replicate (n + 1) (redisMessage c4Event 0))] } := by
  intro n
  induction n with
  | zero =>
    show (handleRedisEvent trAll (c4StateN 0) c4Event 0).1 = _
    exact c4_step0
  | succ k ih =>
    show (handleRedisEvent trAll (c4StateN (k + 1)) c4Event 0).1 = _
    rw [ih]
    rw [c4_step (List.replicate (k + 1) (redisMessage c4Event 0))
      (by intro m hm; rw [List.eq_of_mem_replicate hm]; rfl)]
    rw [← List.replicate_succ']

theorem c4_queue_len (n : ℕ) :
    ((alget (c4StateN n).message_queue "u1").getD []).length = n := by
  cases n with
  | zero => rfl
  | succ k =>
    rw [c4StateN_eq k]
    simp [alget, emptyManager]

/-- C4 (amended): the periodic sweep enforces only the 24-hour retention
window: after `_cleanup_message_queue`, every surviving queue entry is
younger than 24 hours (and empty queues are deleted). There is no maximum
size bound and no drop-oldest-on-append: after `n` events for an offline
user the queue holds exactly `n` messages, for every `n`. -/
theorem c4_queue_retention_unbounded :
    (∀ (st : Manager) (now : ℚ) (u : String) (msgs : List Msg),
        alget (cleanupMessageQueue st now).message_queue u = some msgs →
        msgs ≠ [] ∧ ∀ m ∈ msgs, now - (24 * 60 * 60) < m.timestamp.getD now)
  ∧ (∀ n : ℕ, ((alget (c4StateN n).message_queue "u1").getD []).length = n) := by
  constructor
  · intro st now u msgs h
    exact c4_retention_aux now u msgs st.message_queue h
  · exact c4_queue_len

/-- C4 counterexample: the claim asserts a bounded maximum queue size; but
for every candidate bound `B` the run of `B + 1` offline events exceeds it,
so no bound exists. -/
theorem c4_counterexample :
    ¬ ∃ B : ℕ, ∀ n : ℕ,
      ((alget (c4StateN n).message_queue "u1").getD []).length ≤ B := by
  rintro ⟨B, hB⟩
  have h1 := hB (B + 1)
  rw [c4_queue_len (B + 1)] at h1
  omega

/-- Witness for C4: one fresh message in the queue survives the sweep, and
the three-event run holds exactly three messages. -/
theorem c4_witness :
    (alget (cleanupMessageQueue c4SweepState 0).message_queue "u1" = some [c2QMsg 7])
  ∧ ([c2QMsg 7] ≠ [] ∧ ∀ m ∈ [c2QMsg 7], (0 : ℚ) - (24 * 60 * 60) < m.timestamp.getD 0)
  ∧ ((alget (c4StateN 3).message_queue "u1").getD []).length = 3 := by
  have hwit : alget (cleanupMessageQueue c4SweepState 0).message_queue "u1" =
      some [c2QMsg 7] := by
    simp only [cleanupMessageQueue, c4SweepState, emptyManager]
    simp only [List.filterMap_cons, List.filterMap_nil]
    have : ([c2QMsg 7].filter
        (fun m => decide ((0 : ℚ) - (24 * 60 * 60) < m.timestamp.getD 0))) = [c2QMsg 7] := by
      apply List.filter_eq_self.mpr
      intro m hm
      have hx : m = c2QMsg 7 := by simpa using hm
      rw [hx]
      apply decide_eq_true
      show (0 : ℚ) - (24 * 60 * 60) < (some (0 : ℚ)).getD 0
      norm_num
    rw [this]
    simp [alget]
  refine ⟨hwit, c4_queue_retention_unbounded.1 c4SweepState 0 "u1" [c2QMsg 7] hwit,
    c4_queue_retention_unbounded.2 3⟩
